import Mathlib

/-!
Verification development for the VolleyballTeam assignment engine
(`algorithm.py`): template planning, per-slot candidate ranking, greedy
multi-pass team filling, and best-effort constraint repair
(`postprocess_teams`).  The Python code is shallowly embedded: dicts become
association lists, Python `None` becomes `Option`, in-place mutation becomes
explicit state passing, and the `KeyError` raised by an integer-keyed dict
access is modelled with `Except`.
-/

set_option maxRecDepth 4000

/-- The whitespace characters Python's `str.strip` removes (the roster and
rule strings only ever contain these). -/
def isSpaceChar (c : Char) : Bool := c == ' ' || c == '\t' || c == '\n' || c == '\r'

/-- ASCII lowercasing of one character, as `str.lower` acts on the ASCII
position and email strings this code handles. -/
def lowerChar (c : Char) : Char :=
  if 65 ≤ c.toNat ∧ c.toNat ≤ 90 then Char.ofNat (c.toNat + 32) else c

/-- Models Python `s.lower()`. -/
def strLower (s : String) : String := ⟨s.data.map lowerChar⟩

/-- Models Python `(s or "").strip().lower()`. -/
def pnorm (s : String) : String :=
  ⟨((s.data.dropWhile isSpaceChar).reverse.dropWhile isSpaceChar).reverse.map
    lowerChar⟩

/-- Association-list lookup, modelling `dict.get(k)` (first match; keys are
kept unique by `dictInsert`). -/
def alookup {α : Type} (d : List (String × α)) (k : String) : Option α :=
  (d.find? (fun kv => kv.1 == k)).map (fun kv => kv.2)

/-- Models `dict.get(k, dflt)`. -/
def alookupD {α : Type} (d : List (String × α)) (k : String) (dflt : α) : α :=
  (alookup d k).getD dflt

/-- Models `d[k] = v` on a Python dict: replaces the value in place if the key
exists (keeping its original position, as Python dicts keep insertion order),
otherwise appends the new binding. -/
def dictInsert {α : Type} (d : List (String × α)) (k : String) (v : α) :
    List (String × α) :=
  if d.any (fun kv => kv.1 == k) then
    d.map (fun kv => if kv.1 == k then (k, v) else kv)
  else d ++ [(k, v)]

/-- Models `s.add(x)` on a Python set, represented as an insertion-ordered
duplicate-free list. -/
def setAdd (l : List String) (x : String) : List String :=
  if l.contains x then l else l ++ [x]

/-- Embeds `VALID_POS` from `algorithm.py`. -/
def validPos : List String := ["setter", "middle", "outside"]

/-- One roster person, as the dicts consumed by `TeamGenerator`; a missing
dict field (Python `None`) is the empty string. -/
structure Player where
  name : String := ""
  email : String := ""
  gender : String := ""
  pref1 : String := ""
  pref2 : String := ""
  pref3 : String := ""
deriving Repr, DecidableEq, Inhabited

/-- One placed player inside a team's `players` list. -/
structure Entry where
  name : String := ""
  pos : String := ""
  gender : String := ""
  email : String := ""
  isMissing : Bool := false
deriving Repr, DecidableEq, Inhabited

/-- One team dict produced by `TeamGenerator.generate`; the `meta` sub-dict is
flattened into three counters. -/
structure Team where
  teamNo : Nat := 0
  size : Nat := 0
  missing : Option String := none
  extraPlayerIndex : Option Nat := none
  players : List Entry := []
  metaSetter : Nat := 0
  metaMiddle : Nat := 0
  metaOutside : Nat := 0
deriving Repr, DecidableEq, Inhabited

/-- Embeds `HistoryFairness`: read-only fairness lookups over the last two dates. -/
structure HistoryFairness where
  offprefCountById : List (String × Nat) := []
  anyOffprefById : List (String × Bool) := []
deriving Repr, Inhabited

/-- Embeds `HistoryFairness.offpref_count`. -/
def HistoryFairness.offprefCount (h : HistoryFairness) (email : String) : Nat :=
  alookupD h.offprefCountById email 0

/-- Embeds `HistoryFairness.has_any_offpref`. -/
def HistoryFairness.hasAnyOffpref (h : HistoryFairness) (email : String) : Bool :=
  alookupD h.anyOffprefById email false

/-- Embeds the `SlotRanker` state: fairness history, protected emails, forced positions
(the latter two already normalized, as done in `SlotRanker.__init__`). -/
structure SlotRanker where
  history : HistoryFairness
  keepPrefEmails : List String := []
  forcedPosByEmail : List (String × String) := []
deriving Repr, Inhabited

/-- Embeds `SlotRanker.__init__`: normalizes the protected-email set and the forced
position map, dropping entries whose normalized key or value is empty. -/
def mkSlotRanker (history : HistoryFairness) (keepPrefEmails : List String)
    (forcedPosByEmail : List (String × String)) : SlotRanker :=
  { history := history
    keepPrefEmails := keepPrefEmails.map pnorm
    forcedPosByEmail := forcedPosByEmail.foldl (fun acc ev =>
      let nem := pnorm ev.1
      let npos := pnorm ev.2
      if nem ≠ "" ∧ npos ≠ "" then dictInsert acc nem npos else acc) [] }

/-- The fairness-penalty computation that `rank_for_slot` performs (verbatim
identically) both in its middle block and in its setter/outside block:
`off_ct * 2`, plus `3` when `off_ct >= 1 and not relaxed`, and `0` when the
player is not going off-preference. -/
def goingOffPenalty (offCt : Nat) (relaxed goingOff : Bool) : Nat :=
  if goingOff then offCt * 2 + (if offCt ≥ 1 && !relaxed then 3 else 0) else 0

/-- Embeds `SlotRanker.rank_for_slot`: either `none` (ineligible) or the cost tuple
`(pref_rank, fairness_penalty, special_penalty)`. -/
def SlotRanker.rankForSlot (R : SlotRanker) (player : Player) (pos : String)
    (teamHasFAlready distributedF relaxed : Bool) : Option (Nat × Nat × Nat) :=
  let email := pnorm player.email
  let gender := pnorm player.gender
  let p1 := pnorm player.pref1
  let p2 := pnorm player.pref2
  let p3 := pnorm player.pref3
  let forcedPos : Option String := alookup R.forcedPosByEmail email
  let mainPref1 := forcedPos.getD p1
  let protectedMain : Option String :=
    if validPos.contains mainPref1 then some mainPref1 else none
  let isProtected := R.keepPrefEmails.contains email && protectedMain.isSome
  -- protected player: in the strict pass never leaves `protected_main`
  -- (which, when `isProtected` holds, equals `mainPref1`)
  if isProtected && !relaxed && pos != mainPref1 then none
  else
    let offCt := R.history.offprefCount email
    let allSetter := p1 == "setter" && p2 == "setter" && p3 == "setter"
    if pos == "middle" then
      if gender == "f" && mainPref1 != "middle" then none
      else if !relaxed && offCt ≥ 2 then none
      else if forcedPos == some "middle" then
        some (1, goingOffPenalty offCt relaxed (p1 != "middle"), 0)
      else if p1 == "middle" then
        some (1, goingOffPenalty offCt relaxed false, 0)
      else
        -- middle backfill
        if !relaxed && p1 == "setter" && p2 != "middle" then none
        else if !relaxed && p2 == "setter" then none
        else if !relaxed && R.history.hasAnyOffpref email then none
        else some (4, 0, 0)
    else
      if !relaxed && gender == "f" && teamHasFAlready && !distributedF then none
      else if pos == "setter" && !relaxed && forcedPos != some "setter"
          && p1 == "middle" && p2 != "setter" then none
      else
        let prefRank :=
          match forcedPos with
          | some fp =>
            if pos == fp then 0
            else if p1 == pos then 1
            else if p2 == pos then 2
            else if p3 == pos then 3
            else 5
          | none =>
            if pos == "setter" && allSetter then 0
            else if p1 == pos then 1
            else if p2 == pos then 2
            else if p3 == pos then 3
            else 5
        let fairness := goingOffPenalty offCt relaxed (pos != p1)
        let special :=
          if pos == "setter" && p1 == "middle" && p2 == "setter" then 1 else 0
        some (prefRank, fairness, special)

/-- The 6-slot standard shape. -/
def shape6 : List String :=
  ["setter", "middle", "middle", "outside", "outside", "outside"]

/-- The 7-slot shape (extra outside). -/
def shape7 : List String :=
  ["setter", "middle", "middle", "outside", "outside", "outside", "outside"]

/-- The 5-slot shape (one middle short). -/
def shape5 : List String :=
  ["setter", "middle", "outside", "outside", "outside"]

/-- Embeds `TemplatePlanner.plan`: team count plus shape list.  Python's
`range(negative)` is empty, exactly as truncated `Nat` subtraction in the
`List.replicate` counts. -/
def TemplatePlanner.plan (nPlayers : Nat) : Nat × List (List String) :=
  let r := nPlayers % 6
  if r == 0 then
    let t6 := nPlayers / 6
    (t6, List.replicate t6 shape6)
  else if r == 1 || r == 2 then
    let t := nPlayers / 6
    (t, List.replicate r shape7 ++ List.replicate (t - r) shape6)
  else
    let t := (nPlayers + 5) / 6
    let five : Nat := if r == 3 then 3 else if r == 4 then 2 else 1
    (t, List.replicate (t - five) shape6 ++ List.replicate five shape5)

/-- Abstract deterministic model of CPython's global `random` generator: an
infinite `Nat`-valued draw stream plus a cursor.  Every property proved below
holds for any stream, so nothing depends on the concrete values. -/
structure Rng where
  stream : Nat → Nat
  k : Nat

/-- Draw one value and advance the cursor. -/
def Rng.next (r : Rng) : Nat × Rng :=
  (r.stream r.k, { stream := r.stream, k := r.k + 1 })

/-- Models `random.seed(s)`: the draw stream CPython's Mersenne Twister would
produce after seeding with `s`, abstracted to an unspecified but
seed-determined function (the concrete formula is irrelevant; only that it is
a function of the seed matters). -/
def seedStream (s : Int) : Nat → Nat :=
  fun n => (s.natAbs + 2654435761 * (n + 1)) % 4294967296

/-- Recursive worker for `pyShuffle`; picks the element indexed by the next
draw (mod the current length) and recurses on the rest. -/
def shuffleGo : Nat → Rng → List Player → List Player × Rng
  | 0, rng, xs => (xs, rng)
  | fuel + 1, rng, xs =>
    match xs with
    | [] => ([], rng)
    | x :: rest =>
      let (v, rng1) := rng.next
      let k := v % (x :: rest).length
      let y := (x :: rest).getD k x
      let rest1 := (x :: rest).eraseIdx k
      let (tail, rng2) := shuffleGo fuel rng1 rest1
      (y :: tail, rng2)

/-- Models `random.shuffle(players)`: a permutation of the list fully
determined by the draw stream. -/
def pyShuffle (xs : List Player) (rng : Rng) : List Player × Rng :=
  shuffleGo xs.length rng xs

/-- Strict lexicographic comparison of cost tuples. -/
def tupleLtB (a b : Nat × Nat × Nat) : Bool :=
  decide (a.1 < b.1) ||
    (a.1 == b.1 && (decide (a.2.1 < b.2.1) ||
      (a.2.1 == b.2.1 && decide (a.2.2 < b.2.2))))

/-- Strict lexicographic comparison of the full sort key
`(pref_rank, fairness, special, random.random())`. -/
def keyLtB (a b : (Nat × Nat × Nat) × Nat) : Bool :=
  tupleLtB a.1 b.1 || (a.1 == b.1 && decide (a.2 < b.2))

/-- Worker for `pickBest`: running minimum over the remaining candidates,
keeping the earlier candidate on full-key ties (Python's sort is stable). -/
def pickBestGo : List ((Nat × Nat × Nat) × Player) → Rng →
    (((Nat × Nat × Nat) × Nat) × Player) → Option Player × Rng
  | [], rng, best => (some best.2, rng)
  | (r, p) :: rest, rng, best =>
    let (v, rng1) := rng.next
    if keyLtB (r, v) best.1 then pickBestGo rest rng1 ((r, v), p)
    else pickBestGo rest rng1 best

/-- Models `ranked.sort(key=...(t[0], random.random()))` followed by
`ranked[0][1]`: attach one fresh draw to each candidate in list order and
return the candidate with the least `(cost tuple, draw)` key. -/
def pickBest : List ((Nat × Nat × Nat) × Player) → Rng → Option Player × Rng
  | [], rng => (none, rng)
  | (r, p) :: rest, rng =>
    let (v, rng1) := rng.next
    pickBestGo rest rng1 ((r, v), p)

/-- Embeds `TeamGenerator._total_f`. -/
def totalF (players : List Player) : Nat :=
  (players.filter (fun p => strLower p.gender == "f")).length

/-- Embeds `TeamGenerator._team_has_f`. -/
def teamHasF (t : Team) : Bool :=
  t.players.any (fun pl => !pl.isMissing && strLower pl.gender == "f")

/-- The empty team skeletons generate builds from the planned templates. -/
def mkTeams (templates : List (List String)) : List Team :=
  templates.enum.map (fun it =>
    let size := it.2.length
    { teamNo := it.1 + 1
      size := size
      missing := none
      extraPlayerIndex := none
      players := []
      metaSetter := 1
      metaMiddle := if size == 6 || size == 7 then 2 else 1
      metaOutside := if size == 7 then 4 else 3 })

/-- In-place update of `teams[i]` (no-op when `i` is out of range, which never
happens on the indices generate uses). -/
def updateTeam : List Team → Nat → (Team → Team) → List Team
  | [], _, _ => []
  | t :: ts, 0, f => f t :: ts
  | t :: ts, i + 1, f => t :: updateTeam ts i f

/-- The mutable state of `TeamGenerator.generate`'s fill loop. -/
structure GenState where
  teams : List Team
  remaining : List Player
  rng : Rng

/-- One ranking pass over the remaining pool for a slot: the `(cost, player)`
pairs of the eligible candidates, in pool order. -/
def rankPass (R : SlotRanker) (remaining : List Player) (pos : String)
    (thf df relaxed : Bool) : List ((Nat × Nat × Nat) × Player) :=
  remaining.filterMap (fun p =>
    (R.rankForSlot p pos thf df relaxed).map (fun r => (r, p)))

/-- The candidate list for one slot: the strict pass, falling back to the
relaxed pass when the strict pass finds nobody. -/
def fillRanked (R : SlotRanker) (tCount tF tIdx : Nat) (st : GenState)
    (pos : String) : List ((Nat × Nat × Nat) × Player) :=
  let teamsWithF := (st.teams.filter teamHasF).length
  let distributedF := decide (teamsWithF ≥ min tCount tF)
  let thf := teamHasF (st.teams.getD tIdx default)
  let ranked0 := rankPass R st.remaining pos thf distributedF false
  if ranked0.isEmpty then rankPass R st.remaining pos thf distributedF true
  else ranked0

/-- The entry appended to a team when `pick` fills a `pos` slot. -/
def placeEntry (pick : Player) (pos : String) : Entry :=
  { name := pick.name, pos := pos, gender := pnorm pick.gender
    email := pick.email, isMissing := false }

/-- Filling one slot of team `tIdx`: strict pass, then relaxed pass if the
strict pass found nobody; an empty relaxed pass skips the slot; otherwise the
best candidate is appended to the team and removed from the pool. -/
def fillPos (R : SlotRanker) (tCount tF : Nat) (tIdx : Nat)
    (st : GenState) (pos : String) : GenState :=
  match pickBest (fillRanked R tCount tF tIdx st pos) st.rng with
  | (none, rng1) => { st with rng := rng1 }
  | (some pick, rng1) =>
    { teams := updateTeam st.teams tIdx
        (fun t => { t with players := t.players ++ [placeEntry pick pos] })
      remaining := st.remaining.erase pick
      rng := rng1 }

/-- Filling one whole team from its template: mark 5-slot teams as missing a
middle, fill each template position in order, then record the extra-player
index for 7-slot teams.  (The `missing = None` normalization Python performs
for 6/7-slot teams is a no-op and is omitted.) -/
def fillTeam (R : SlotRanker) (tCount tF : Nat) (st : GenState)
    (it : Nat × List String) : GenState :=
  let tIdx := it.1
  let tmpl := it.2
  let st1 :=
    if tmpl.length == 5 then
      { st with teams :=
          updateTeam st.teams tIdx (fun t => { t with missing := some "middle" }) }
    else st
  let st2 := tmpl.foldl (fillPos R tCount tF tIdx) st1
  { st2 with teams := updateTeam st2.teams tIdx (fun t =>
      if t.size == 7 && !t.players.isEmpty then
        { t with extraPlayerIndex := some (t.players.length - 1) }
      else t) }

/-- Count of real (non-placeholder) members of a team. -/
def realCount (t : Team) : Nat :=
  (t.players.filter (fun pl => !pl.isMissing)).length

/-- Models `min(range(T_count), key=...)`: the first index whose team has the
fewest real members. -/
def argminIdx (teams : List Team) : Nat :=
  (List.range teams.length).foldl
    (fun best i =>
      if realCount (teams.getD i default) < realCount (teams.getD best default)
      then i else best) 0

/-- The entry built for a leftover player: always placed as outside. -/
def leftoverEntry (p : Player) : Entry :=
  { name := p.name, pos := "outside", gender := pnorm p.gender
    email := p.email, isMissing := false }

/-- One iteration of the `while remaining` safety loop: append the leftover
as outside to the team currently holding the fewest real members, updating
the extra-player index of a 7-slot team. -/
def leftoverAdd (teams : List Team) (p : Player) : List Team :=
  updateTeam teams (argminIdx teams) (fun t =>
    let t1 := { t with players := t.players ++ [leftoverEntry p] }
    if t1.size == 7 then
      { t1 with extraPlayerIndex := some (t1.players.length - 1) }
    else t1)

/-- The `while remaining` safety loop at the end of `generate`. -/
def distributeLeftovers : List Team → List Player → List Team
  | teams, [] => teams
  | teams, p :: rest => distributeLeftovers (leftoverAdd teams p) rest

/-- Embeds the core of `TeamGenerator.generate` once the roster is already
shuffled: plans the templates, fills every team, and distributes any
leftovers. -/
def generateFromShuffled (R : SlotRanker) (shuffled : List Player)
    (rng : Rng) : List Team :=
  let templates := (TemplatePlanner.plan shuffled.length).2
  let teams0 := mkTeams templates
  let st := templates.enum.foldl (fillTeam R teams0.length (totalF shuffled))
    { teams := teams0, remaining := shuffled, rng := rng }
  distributeLeftovers st.teams st.remaining

/-- Embeds `TeamGenerator.__init__` followed by `TeamGenerator.generate`:
seeds the generator when a seed is supplied (otherwise keeps the ambient
stream), shuffles the roster, and runs the fill stage. -/
def TeamGenerator.generate (players : List Player) (seed : Option Int)
    (ambient : Nat → Nat) (history : HistoryFairness)
    (keepPrefEmails : List String) (forcedPosByEmail : List (String × String)) :
    List Team :=
  if players.isEmpty then []
  else
    let R := mkSlotRanker history keepPrefEmails forcedPosByEmail
    let stream := match seed with | some s => seedStream s | none => ambient
    let sh := pyShuffle players { stream := stream, k := 0 }
    generateFromShuffled R sh.1 sh.2

/-- One raw session-rule dict, as read from the Sheets control tab. -/
structure RuleInput where
  playerEmail : String := ""
  cannotPlayPositions : List String := []
  mustPlayWith : List String := []
  cannotPlayWith : List String := []
  forcedPosition : String := ""
deriving Repr, DecidableEq, Inhabited

/-- One normalized entry of `rules_by_email`; the Python sets are modelled as
insertion-ordered duplicate-free lists. -/
structure RuleEntry where
  playerEmail : String := ""
  cannotPlayPositions : List String := []
  mustPlayWith : List String := []
  cannotPlayWith : List String := []
  forcedPosition : String := ""
deriving Repr, DecidableEq, Inhabited

/-- A fresh `rules_by_email` entry (the `setdefault` default). -/
def emptyRule (email : String) : RuleEntry :=
  { playerEmail := email }

/-- Find the rule entry for a normalized email, `rules_by_email.get(email)`. -/
def findRule (rules : List RuleEntry) (email : String) : Option RuleEntry :=
  rules.find? (fun r => r.playerEmail == email)

/-- Store an entry back, replacing an existing entry with the same email in
place (Python mutates the entry returned by `setdefault`). -/
def upsertRule (rules : List RuleEntry) (e : RuleEntry) : List RuleEntry :=
  if rules.any (fun r => r.playerEmail == e.playerEmail) then
    rules.map (fun r => if r.playerEmail == e.playerEmail then e else r)
  else rules ++ [e]

/-- The rule-normalization loop at the top of `postprocess_teams`: merge the
raw rule dicts into one entry per normalized email, keeping only valid
positions and non-empty partner emails. -/
def normalizeRules (sessionRules : List RuleInput) : List RuleEntry :=
  sessionRules.foldl (fun acc r =>
    let email := pnorm r.playerEmail
    if email == "" then acc
    else
      let entry := (findRule acc email).getD (emptyRule email)
      let cps := r.cannotPlayPositions.foldl (fun c pos =>
        let p := pnorm pos
        if validPos.contains p then setAdd c p else c) entry.cannotPlayPositions
      let mws := r.mustPlayWith.foldl (fun c em =>
        let e2 := pnorm em
        if e2 != "" then setAdd c e2 else c) entry.mustPlayWith
      let cws := r.cannotPlayWith.foldl (fun c em =>
        let e2 := pnorm em
        if e2 != "" then setAdd c e2 else c) entry.cannotPlayWith
      let fp := pnorm r.forcedPosition
      let fpv := if validPos.contains fp then fp else entry.forcedPosition
      upsertRule acc { entry with cannotPlayPositions := cps
                                  mustPlayWith := mws
                                  cannotPlayWith := cws
                                  forcedPosition := fpv }) []

/-- Embeds `build_index`: normalized email to `(team_idx, player_idx)`, skipping
placeholders and empty emails; later occurrences override earlier ones. -/
def buildIndex (teams : List Team) : List (String × (Nat × Nat)) :=
  teams.enum.foldl (fun idx tp =>
    tp.2.players.enum.foldl (fun idx pp =>
      if pp.2.isMissing then idx
      else
        let em := pnorm pp.2.email
        if em == "" then idx else dictInsert idx em (tp.1, pp.1)) idx) []

/-- Read `teams[ti]["players"][pi]` (a default entry when out of range, which
never happens on indices coming from `buildIndex`). -/
def getEntry (teams : List Team) (ti pi : Nat) : Entry :=
  (teams.getD ti default).players.getD pi default

/-- Write `teams[ti]["players"][pi] = e` in place. -/
def setEntry (teams : List Team) (ti pi : Nat) (e : Entry) : List Team :=
  updateTeam teams ti (fun t => { t with players := t.players.set pi e })

/-- First element minimal under the strict comparison `lt`, i.e. the head of
a stable sort by the corresponding key (what `candidates.sort(...)` followed
by `candidates[0]` computes). -/
def selectMinBy {α : Type} (lt : α → α → Bool) : List α → Option α
  | [] => none
  | x :: xs => some (xs.foldl (fun best y => if lt y best then y else best) x)

/-- Phase 0 candidate scan: every `(offpref, ti2, pj2)` whose occupant sits at
the forced position and has no conflicting forced/forbidden rule of its own,
in team-then-player order. -/
def phase0Candidates (rules : List RuleEntry) (offpref : List (String × Nat))
    (teams : List Team) (forcedPos currentPos : String) :
    List (Nat × Nat × Nat) :=
  teams.enum.flatMap (fun tp =>
    tp.2.players.enum.filterMap (fun pp =>
      if pp.2.isMissing then none
      else
        let pos2 := pnorm pp.2.pos
        if pos2 != forcedPos then none
        else
          let email2 := pnorm pp.2.email
          let keep :=
            match findRule rules email2 with
            | some rule2 =>
              if rule2.forcedPosition != "" && rule2.forcedPosition != pos2 then
                false
              else !(rule2.cannotPlayPositions.contains currentPos)
            | none => true
          if keep then some (alookupD offpref email2 0, tp.1, pp.1) else none))

/-- Phase 0, one forced-position rule.  When a swap candidate exists the
Python line `teams[ti][pi], teams[ti2][pj2] = teams[ti2][pj2], teams[ti][pi]`
indexes the team dict with an integer and raises `KeyError`; the fallback
relabels the player's slot with the forced position. -/
def phase0Step (rules : List RuleEntry) (offpref : List (String × Nat))
    (idx : List (String × (Nat × Nat))) (teams : List Team)
    (rule : RuleEntry) : Except String (List Team) :=
  let forcedPos := rule.forcedPosition
  if forcedPos == "" then .ok teams
  else
    match alookup idx rule.playerEmail with
    | none => .ok teams
    | some (ti, pi) =>
      let player := getEntry teams ti pi
      let currentPos := pnorm player.pos
      if currentPos == forcedPos then .ok teams
      else
        match selectMinBy (fun a b => decide (a.1 < b.1))
            (phase0Candidates rules offpref teams forcedPos currentPos) with
        | some _ => .error "KeyError"
        | none => .ok (setEntry teams ti pi { player with pos := forcedPos })

/-- Phase 0 over all rules; the index is built once before the loop (the
fallback never moves a player, so it stays valid). -/
def phase0 (offpref : List (String × Nat)) (rules : List RuleEntry)
    (teams : List Team) : Except String (List Team) :=
  let idx := buildIndex teams
  rules.foldlM (fun ts rule => phase0Step rules offpref idx ts rule) teams

/-- The stable sort key comparison of phase 1: for a forbidden `middle` prefer
non-female then lower off-pref count, otherwise lower off-pref count only.
A candidate is `(cj, c_off, c_gender, other_pos)`. -/
def phase1Lt (currentPos : String) (a b : Nat × Nat × String × String) : Bool :=
  if currentPos == "middle" then
    let fa : Nat := if a.2.2.1 == "f" then 1 else 0
    let fb : Nat := if b.2.2.1 == "f" then 1 else 0
    decide (fa < fb) || (fa == fb && decide (a.2.1 < b.2.1))
  else decide (a.2.1 < b.2.1)

/-- Phase 1, one forbidden-positions rule: swap only the `pos` labels of the
player and the chosen same-team candidate. -/
def phase1Step (rules : List RuleEntry) (offpref : List (String × Nat))
    (idx : List (String × (Nat × Nat))) (teams : List Team)
    (rule : RuleEntry) : List Team :=
  let forbidden := rule.cannotPlayPositions
  if forbidden.isEmpty then teams
  else if rule.forcedPosition != "" then teams
  else
    match alookup idx rule.playerEmail with
    | none => teams
    | some (ti, pi) =>
      let player := getEntry teams ti pi
      let currentPos := pnorm player.pos
      if !(forbidden.contains currentPos) then teams
      else
        let candidates := (teams.getD ti default).players.enum.filterMap
          (fun cp =>
            if cp.1 == pi then none
            else if cp.2.isMissing then none
            else
              let otherPos := pnorm cp.2.pos
              if otherPos == currentPos then none
              else
                let cEmail := pnorm cp.2.email
                let keep :=
                  match findRule rules cEmail with
                  | some cr =>
                    if cr.forcedPosition != "" then false
                    else !(cr.cannotPlayPositions.contains currentPos)
                  | none => true
                if keep then
                  some (cp.1, alookupD offpref cEmail 0, pnorm cp.2.gender,
                    otherPos)
                else none)
        match selectMinBy (phase1Lt currentPos) candidates with
        | none => teams
        | some best =>
          let teammate := getEntry teams ti best.1
          let teams1 := setEntry teams ti pi { player with pos := teammate.pos }
          setEntry teams1 ti best.1 { teammate with pos := player.pos }

/-- Phase 1 over all rules (index built once; position swaps never move a
player between slots, so it stays valid). -/
def phase1 (offpref : List (String × Nat)) (rules : List RuleEntry)
    (teams : List Team) : List Team :=
  let idx := buildIndex teams
  rules.foldl (fun ts rule => phase1Step rules offpref idx ts rule) teams

/-- Phase 2, one `must_play_with` partner: try to bring the partner into the
player's team by swapping it with a same-position occupant (the player's own
slot excluded), preferring the lowest off-pref count. -/
def phase2MustStep (offpref : List (String × Nat)) (locA : Nat × Nat)
    (teams : List Team) (otherEmail : String) : List Team :=
  match alookup (buildIndex teams) otherEmail with
  | none => teams
  | some (tb, pb) =>
    if tb == locA.1 then teams
    else
      let playerB := getEntry teams tb pb
      let bPos := pnorm playerB.pos
      let candidates := (teams.getD locA.1 default).players.enum.filterMap
        (fun cp =>
          if cp.2.isMissing then none
          else if cp.1 == locA.2 then none
          else if pnorm cp.2.pos != bPos then none
          else some (cp.1, alookupD offpref (pnorm cp.2.email) 0))
      match selectMinBy (fun a b => decide (a.2 < b.2)) candidates with
      | none => teams
      | some c =>
        let e1 := getEntry teams locA.1 c.1
        let teams1 := setEntry teams locA.1 c.1 playerB
        setEntry teams1 tb pb e1

/-- Phase 2, one rule: the player's location is looked up once, then each
`must_play_with` partner is processed in order (the index is rebuilt from the
current teams after every swap, which the fresh `buildIndex` models). -/
def phase2Step (offpref : List (String × Nat)) (teams : List Team)
    (rule : RuleEntry) : List Team :=
  if rule.mustPlayWith.isEmpty then teams
  else
    match alookup (buildIndex teams) rule.playerEmail with
    | none => teams
    | some locA => rule.mustPlayWith.foldl (phase2MustStep offpref locA) teams

/-- Phase 2 over all rules. -/
def phase2 (offpref : List (String × Nat)) (rules : List RuleEntry)
    (teams : List Team) : List Team :=
  rules.foldl (phase2Step offpref) teams

/-- Phase 3 helper: try one target team; `none` when it is the source team or
offers no same-position occupant, otherwise the teams after the swap. -/
def phase3TryTeam (offpref : List (String × Nat)) (teams : List Team)
    (tb pb : Nat) (bPos : String) (target : Nat) : Option (List Team) :=
  if target == tb then none
  else
    let candidates := (teams.getD target default).players.enum.filterMap
      (fun cp =>
        if cp.2.isMissing then none
        else if pnorm cp.2.pos != bPos then none
        else some (cp.1, alookupD offpref (pnorm cp.2.email) 0))
    match selectMinBy (fun a b => decide (a.2 < b.2)) candidates with
    | none => none
    | some c =>
      let playerB := getEntry teams tb pb
      let e1 := getEntry teams target c.1
      let teams1 := setEntry teams target c.1 playerB
      some (setEntry teams1 tb pb e1)

/-- First defined value of `f` along a list (models a loop with `break` on
the first success). -/
def firstSome {α β : Type} (f : α → Option β) : List α → Option β
  | [] => none
  | x :: xs => match f x with | some y => some y | none => firstSome f xs

/-- Phase 3, one `cannot_play_with` partner: if both share a team, move the
partner to the first other team offering a same-position swap. -/
def phase3CannotStep (offpref : List (String × Nat)) (locA : Nat × Nat)
    (teams : List Team) (otherEmail : String) : List Team :=
  match alookup (buildIndex teams) otherEmail with
  | none => teams
  | some (tb, pb) =>
    if locA.1 != tb then teams
    else
      let bPos := pnorm (getEntry teams tb pb).pos
      match firstSome (phase3TryTeam offpref teams tb pb bPos)
          (List.range teams.length) with
      | some teams1 => teams1
      | none => teams

/-- Phase 3, one rule. -/
def phase3Step (offpref : List (String × Nat)) (teams : List Team)
    (rule : RuleEntry) : List Team :=
  if rule.cannotPlayWith.isEmpty then teams
  else
    match alookup (buildIndex teams) rule.playerEmail with
    | none => teams
    | some locA => rule.cannotPlayWith.foldl (phase3CannotStep offpref locA) teams

/-- Phase 3 over all rules. -/
def phase3 (offpref : List (String × Nat)) (rules : List RuleEntry)
    (teams : List Team) : List Team :=
  rules.foldl (phase3Step offpref) teams

/-- Embeds `postprocess_teams`: normalize the session rules, then run the four
repair phases.  The `last_two_any_offpref_by_id` argument is accepted and,
as in the source, never used.  A `KeyError` from the phase-0 swap line is
surfaced as `Except.error`. -/
def postprocessTeams (teams : List Team) (sessionRules : List RuleInput)
    (offpref : List (String × Nat)) (anyOffpref : List (String × Bool)) :
    Except String (List Team) :=
  let _ := anyOffpref
  if teams.isEmpty then .ok teams
  else
    let rules := normalizeRules sessionRules
    if rules.isEmpty then .ok teams
    else
      match phase0 offpref rules teams with
      | .error e => .error e
      | .ok t0 =>
        .ok (phase3 offpref rules (phase2 offpref rules (phase1 offpref rules t0)))

-- Equality on the embedded results is decidable (needed to state concrete
-- evaluations of `postprocess_teams`).
deriving instance DecidableEq for Except

/-- The number of 5-slot shapes the planner requests for a remainder-3/4/5
roster size. -/
def fiveCount (n : Nat) : Nat :=
  if n % 6 = 3 then 3 else if n % 6 = 4 then 2 else 1

/-- The ranker of the C4 counterexample: one recorded off-preference for the
candidate. -/
def c4Ranker : SlotRanker := { history := { offprefCountById := [("b@x", 1)] } }

/-- The C4 counterexample candidate: a middle backfill candidate (pref1 =
outside). -/
def c4Player : Player := { email := "b@x", pref1 := "outside" }

/-- The teams of the C3 scenario: one team with B at setter, C at middle and
A at outside. -/
def c3Teams : List Team :=
  [{ teamNo := 1, size := 6,
     players :=
      [ { name := "B", pos := "setter", gender := "m", email := "b@x" },
        { name := "C", pos := "middle", gender := "m", email := "c@x" },
        { name := "A", pos := "outside", gender := "m", email := "a@x" } ] }]

/-- The single session rule of the C3 scenario: A is forced to setter; B has
no rule at all, hence no conflicting forced or forbidden position. -/
def c3Rules : List RuleInput :=
  [{ playerEmail := "a@x", forcedPosition := "setter" }]

/-- The C5 counterexample team: P at middle, C at setter. -/
def c5Teams : List Team :=
  [{ teamNo := 1, size := 6,
     players :=
      [ { name := "P", pos := "middle", gender := "m", email := "p@x" },
        { name := "C", pos := "setter", gender := "m", email := "c@x" } ] }]

/-- The C5 counterexample rule: P may play neither middle nor setter. -/
def c5Rules : List RuleInput :=
  [{ playerEmail := "p@x", cannotPlayPositions := ["middle", "setter"] }]

/-- The per-team player-entry counts, together with the team count (via the
list length): the quantity no repair phase may change. -/
def shapeOf (teams : List Team) : List Nat :=
  teams.map (fun t => t.players.length)

/-- Sum of all player-entry counts across the teams. -/
def totalCount (teams : List Team) : Nat := (shapeOf teams).sum

/-- Roster for the concrete C1/C8 runs: one setter-preferring player, one
true middle, one backfill candidate, three outside-preferring players, the
last of them female. -/
def rS : Player := { name := "S", email := "s@x", gender := "m", pref1 := "setter" }

/-- True middle of the concrete roster. -/
def rP : Player := { name := "P", email := "p@x", gender := "m", pref1 := "middle" }

/-- Backfill candidate of the concrete roster. -/
def rY : Player := { name := "Y", email := "y@x", gender := "m", pref1 := "outside" }

/-- Outside-preferring player A of the concrete roster. -/
def rA : Player := { name := "A", email := "a@x", gender := "m", pref1 := "outside" }

/-- Outside-preferring player B of the concrete roster. -/
def rB : Player := { name := "B", email := "b@x", gender := "m", pref1 := "outside" }

/-- The female outside-preferring player of the concrete roster. -/
def rF : Player := { name := "F", email := "f@x", gender := "f", pref1 := "outside" }

/-- The six-player roster of the concrete C1 run. -/
def rosterC1 : List Player := [rS, rP, rY, rA, rB, rF]

/-- Effective first preference of a player for the female-middle rule: the
forced position when one is registered, otherwise pref1 (both normalized). -/
def effMain (R : SlotRanker) (p : Player) : String :=
  (alookup R.forcedPosByEmail (pnorm p.email)).getD (pnorm p.pref1)

/-- The female-middle invariant relative to an allowance predicate on the
entry's (raw) email: every female entry at middle is allowed. -/
def FemaleMiddleSafe (allowed : String → Prop) (teams : List Team) : Prop :=
  ∀ t ∈ teams, ∀ e ∈ t.players, e.pos = "middle" → e.gender = "f" →
    allowed e.email

/-- The allowance established by generation: the entry corresponds to some
roster player whose effective first preference is middle. -/
def genAllowed (R : SlotRanker) (players : List Player) (em : String) : Prop :=
  ∃ p ∈ players, p.email = em ∧ effMain R p = "middle"

/-- The additional allowance phase 0 can introduce: a session rule forcing
this player to middle. -/
def ruleForcedMiddle (rules : List RuleEntry) (em : String) : Prop :=
  ∃ re ∈ rules, re.playerEmail = pnorm em ∧ re.forcedPosition = "middle"

/-- Entry-wise containment of team lists: every placed entry of `a` is a
placed entry of `b` (or the out-of-range default entry). -/
def entriesSub (a b : List Team) : Prop :=
  ∀ t ∈ a, ∀ e ∈ t.players, (∃ t0 ∈ b, e ∈ t0.players) ∨ e = default

/-- Protected emails derived (as `main.py` does) from the C1 session rules:
every player with a rule becomes keep-preference protected. -/
def keepC1 : List String := ["s@x", "p@x", "a@x", "b@x"]

/-- The C1 session rules: S, P, A and B may not play middle; F and Y have no
rule, and nobody has a forced position. -/
def rulesC1 : List RuleInput :=
  [ { playerEmail := "s@x", cannotPlayPositions := ["middle"] },
    { playerEmail := "p@x", cannotPlayPositions := ["middle"] },
    { playerEmail := "a@x", cannotPlayPositions := ["middle"] },
    { playerEmail := "b@x", cannotPlayPositions := ["middle"] } ]

/-- The generated teams of the concrete C1 run (seed 0). -/
def genC1 : List Team :=
  TeamGenerator.generate rosterC1 (some 0) (fun _ => 0) {} keepC1 []

/-- Decidable check of the claimed invariant on a result: every female entry
at middle corresponds to a roster player with that email whose effective
first preference is middle. -/
def femaleMiddleOkB (R : SlotRanker) (players : List Player)
    (teams : List Team) : Bool :=
  teams.all (fun t => t.players.all (fun e =>
    !(e.pos == "middle" && e.gender == "f") ||
      players.any (fun p => p.email == e.email && effMain R p == "middle")))

example : TemplatePlanner.plan 12 = (2, [shape6, shape6]) := by decide
example : TemplatePlanner.plan 17 = (3, [shape6, shape6, shape5]) := by decide
example : TemplatePlanner.plan 9 = (2, [shape5, shape5, shape5]) := by decide
example : TemplatePlanner.plan 13 = (2, [shape7, shape6]) := by decide

/-- C2 (corrected).  For n mod 6 in {3,4,5}, `plan` returns team count
ceil(n/6); provided that count is at least the requested number of 5-slot
shapes ({3,2,1} respectively), the shape list has exactly ceil(n/6) entries,
of which exactly fiveCount are the 5-slot shape and the rest the standard
6-slot shape, with all 6-slot shapes ordered before the 5-slot shapes. -/
theorem C2_plan_remainder345 (n : Nat)
    (h1 : n % 6 = 3 ∨ n % 6 = 4 ∨ n % 6 = 5)
    (h2 : fiveCount n ≤ (n + 5) / 6) :
    (TemplatePlanner.plan n).1 = (n + 5) / 6 ∧
    (TemplatePlanner.plan n).2.length = (n + 5) / 6 ∧
    (TemplatePlanner.plan n).2.count shape5 = fiveCount n ∧
    (TemplatePlanner.plan n).2.count shape6 = (n + 5) / 6 - fiveCount n ∧
    (TemplatePlanner.plan n).2 =
      List.replicate ((n + 5) / 6 - fiveCount n) shape6 ++
        List.replicate (fiveCount n) shape5 := by
  have h56 : (shape5 == shape6) = false := by decide
  have h65 : (shape6 == shape5) = false := by decide
  have h55 : (shape5 == shape5) = true := by decide
  have h66 : (shape6 == shape6) = true := by decide
  rcases h1 with h | h | h <;>
    simp [TemplatePlanner.plan, fiveCount, h, h56, h65, h55, h66,
      List.count_append, List.count_replicate, List.count_cons,
      List.count_nil, List.length_append, List.length_replicate] at h2 ⊢ <;>
    omega

/-- Witness for C2 at n = 17: 3 teams, shapes [6,6,5]. -/
theorem C2_plan_remainder345_witness :
    (TemplatePlanner.plan 17).1 = (17 + 5) / 6 ∧
    (TemplatePlanner.plan 17).2.length = (17 + 5) / 6 ∧
    (TemplatePlanner.plan 17).2.count shape5 = fiveCount 17 ∧
    (TemplatePlanner.plan 17).2.count shape6 = (17 + 5) / 6 - fiveCount 17 ∧
    (TemplatePlanner.plan 17).2 =
      List.replicate ((17 + 5) / 6 - fiveCount 17) shape6 ++
        List.replicate (fiveCount 17) shape5 :=
  C2_plan_remainder345 17 (by decide) (by decide)

/-- Counterexample to C2 as stated: for n = 9 (9 mod 6 = 3) the claim says the
shape list has exactly ceil(9/6) = 2 entries of which 3 are 5-slot shapes,
which is impossible; the code in fact returns team count 2 together with a
shape list of 3 entries, all of them the 5-slot shape. -/
theorem C2_plan_counterexample :
    (TemplatePlanner.plan 9).1 = 2 ∧
    (TemplatePlanner.plan 9).2.length = 3 ∧
    (TemplatePlanner.plan 9).2 = [shape5, shape5, shape5] := by decide

/-- C10 (confirmed).  In the strict pass, every candidate with an
off-preference count of at least 2 is rejected for a middle slot — the
fatigue cutoff sits before the true-middle branches, so it also applies to
candidates whose first preference or forced position is middle. -/
theorem C10_middle_fatigue_cutoff (R : SlotRanker) (player : Player)
    (thf df : Bool)
    (h : 2 ≤ R.history.offprefCount (pnorm player.email)) :
    R.rankForSlot player "middle" thf df false = none := by
  have hc : decide (2 ≤ R.history.offprefCount (pnorm player.email)) = true := by
    simpa using h
  simp only [SlotRanker.rankForSlot, beq_self_eq_true, if_true,
    Bool.not_false, Bool.true_and, Bool.and_true, hc, ite_self]

/-- Witness for C10: a true middle (pref1 = middle) with off-pref count 2 is
rejected by the strict pass. -/
theorem C10_middle_fatigue_cutoff_witness :
    SlotRanker.rankForSlot
      { history := { offprefCountById := [("m@x", 2)] } }
      { email := "m@x", pref1 := "middle" } "middle" false false false
      = none :=
  C10_middle_fatigue_cutoff
    { history := { offprefCountById := [("m@x", 2)] } }
    { email := "m@x", pref1 := "middle" } false false (by decide)

/-- C9 (confirmed).  In the strict pass, a middle-slot backfill candidate
(first preference not middle, no forced middle) is rejected when their first
preference is setter with second preference not middle, or their second
preference is setter, or they were off-preference at least once in the last
two outcomes; every backfill candidate that is accepted receives exactly the
cost tuple (4, 0, 0). -/
theorem C9_middle_backfill_strict (R : SlotRanker) (player : Player)
    (thf df : Bool)
    (hforced : alookup R.forcedPosByEmail (pnorm player.email) ≠ some "middle")
    (hp1 : pnorm player.pref1 ≠ "middle") :
    ((pnorm player.pref1 = "setter" ∧ pnorm player.pref2 ≠ "middle") ∨
        pnorm player.pref2 = "setter" ∨
        R.history.hasAnyOffpref (pnorm player.email) = true →
      R.rankForSlot player "middle" thf df false = none) ∧
    (∀ t, R.rankForSlot player "middle" thf df false = some t →
      t = (4, 0, 0)) := by
  have hf : (alookup R.forcedPosByEmail (pnorm player.email) == some "middle")
      = false := by simpa using hforced
  have h1 : (pnorm player.pref1 == "middle") = false := by simpa using hp1
  constructor
  · intro hbad
    simp only [SlotRanker.rankForSlot, beq_self_eq_true, if_true,
      Bool.not_false, Bool.true_and, hf, h1, Bool.false_eq_true, if_false]
    split_ifs <;> simp_all
  · intro t ht
    simp only [SlotRanker.rankForSlot, beq_self_eq_true, if_true,
      Bool.not_false, Bool.true_and, hf, h1, Bool.false_eq_true, if_false] at ht
    split_ifs at ht <;> simp_all

/-- Witness for C9: a backfill candidate with pref2 = setter is rejected, and
one with clean history and neutral preferences is accepted at (4, 0, 0). -/
theorem C9_middle_backfill_strict_witness :
    SlotRanker.rankForSlot { history := {} }
      { email := "b@x", pref1 := "outside", pref2 := "setter" }
      "middle" false false false = none ∧
    ∀ t, SlotRanker.rankForSlot { history := {} }
      { email := "c@x", pref1 := "outside" } "middle" false false false
        = some t → t = (4, 0, 0) :=
  ⟨(C9_middle_backfill_strict { history := {} }
      { email := "b@x", pref1 := "outside", pref2 := "setter" }
      false false (by decide) (by decide)).1 (Or.inr (Or.inl (by decide))),
   (C9_middle_backfill_strict { history := {} }
      { email := "c@x", pref1 := "outside" }
      false false (by decide) (by decide)).2⟩

/-- Helper: a three-guard rejection chain around one accepted value. -/
theorem chain3_some {α : Type} {A B C : Prop}
    [Decidable A] [Decidable B] [Decidable C] {v t : α}
    (h : (if A then none else if B then none else if C then none else some v)
      = some t) : v = t := by
  split_ifs at h
  simp_all

/-- Helper: the shape of the middle block of `rank_for_slot`: three rejection
guards, two acceptance branches, three backfill rejection guards, and the
backfill acceptance. -/
theorem middle_chain_some {α : Type} {A B C D E F G H : Prop}
    [Decidable A] [Decidable B] [Decidable C] [Decidable D] [Decidable E]
    [Decidable F] [Decidable G] [Decidable H] {v1 v2 v3 t : α}
    (h : (if A then none else if B then none else if C then none
          else if D then some v1 else if E then some v2
          else if F then none else if G then none else if H then none
          else some v3) = some t) :
    (D ∧ v1 = t) ∨ (¬D ∧ E ∧ v2 = t) ∨ (¬D ∧ ¬E ∧ v3 = t) := by
  split_ifs at h <;> simp_all

/-- C4 (corrected).  For every eligible candidate, the fairness-penalty
component is 0 for a middle backfill candidate (first preference not middle,
no forced middle) regardless of history; otherwise it is 0 when the target
position equals the first preference, and `off * 2` plus a fixed 3 when
`off ≥ 1` in the strict pass. -/
theorem C4_fairness_penalty_amended (R : SlotRanker) (player : Player)
    (pos : String) (thf df relaxed : Bool) (t : Nat × Nat × Nat)
    (h : R.rankForSlot player pos thf df relaxed = some t) :
    t.2.1 =
      if pos = "middle" ∧
          alookup R.forcedPosByEmail (pnorm player.email) ≠ some "middle" ∧
          pnorm player.pref1 ≠ "middle" then 0
      else if pos = pnorm player.pref1 then 0
      else R.history.offprefCount (pnorm player.email) * 2 +
        (if 1 ≤ R.history.offprefCount (pnorm player.email) ∧ relaxed = false
          then 3 else 0) := by
  by_cases hm : pos = "middle"
  · subst hm
    simp only [SlotRanker.rankForSlot, beq_self_eq_true, if_true] at h
    rcases middle_chain_some h with ⟨hD, hv⟩ | ⟨hD, hE, hv⟩ | ⟨hD, hE, hv⟩
    · -- forced middle: fairness from going off pref1
      have hD2 : alookup R.forcedPosByEmail (pnorm player.email)
          = some "middle" := by simpa using hD
      subst hv
      by_cases hp : pnorm player.pref1 = "middle"
      · simp_all [goingOffPenalty]
      · have hp2 : ¬("middle" = pnorm player.pref1) := fun hh => hp hh.symm
        simp_all [goingOffPenalty, hp2]
    · -- true middle by pref1
      have hE2 : pnorm player.pref1 = "middle" := by simpa using hE
      subst hv
      simp_all [goingOffPenalty]
    · -- backfill: flat zero fairness
      have hD2 : alookup R.forcedPosByEmail (pnorm player.email)
          ≠ some "middle" := by simpa using hD
      have hE2 : pnorm player.pref1 ≠ "middle" := by simpa using hE
      subst hv
      simp_all
  · have hm2 : (pos == "middle") = false := by simpa using hm
    simp only [SlotRanker.rankForSlot, hm2, Bool.false_eq_true, if_false] at h
    have hv := chain3_some h
    subst hv
    by_cases hp : pos = pnorm player.pref1 <;>
      simp_all [goingOffPenalty]

/-- Counterexample to C4 as stated: in the relaxed pass this backfill
candidate is eligible and placed off-preference with offPrefCount 1, so the
claimed formula demands fairnessPenalty 2 × 1 = 2, but the code returns the
tuple (4, 0, 0), whose fairness component is 0. -/
theorem C4_counterexample :
    c4Ranker.rankForSlot c4Player "middle" false false true = some (4, 0, 0) ∧
    "middle" ≠ pnorm c4Player.pref1 ∧
    c4Ranker.history.offprefCount (pnorm c4Player.email) * 2 = 2 := by decide

/-- Witness for the amended C4 at the counterexample input. -/
theorem C4_fairness_penalty_amended_witness :
    ((4, 0, 0) : Nat × Nat × Nat).2.1 =
      if "middle" = "middle" ∧
          alookup c4Ranker.forcedPosByEmail (pnorm c4Player.email)
            ≠ some "middle" ∧
          pnorm c4Player.pref1 ≠ "middle" then 0
      else if "middle" = pnorm c4Player.pref1 then 0
      else c4Ranker.history.offprefCount (pnorm c4Player.email) * 2 +
        (if 1 ≤ c4Ranker.history.offprefCount (pnorm c4Player.email) ∧
            true = false then 3 else 0) :=
  C4_fairness_penalty_amended c4Ranker c4Player "middle" false false true
    (4, 0, 0) (by decide)

/-- C6 (confirmed).  With an integer seed supplied, the pre-existing state of
the ambient random generator is discarded (`random.seed(seed)` resets it), so
two runs of generate followed by postprocess over the same roster, seed,
fairness maps and session rules produce identical output — here stated as
independence from the ambient draw stream, the only run-to-run varying
input. -/
theorem C6_seeded_determinism (players : List Player) (s : Int)
    (ambient1 ambient2 : Nat → Nat) (history : HistoryFairness)
    (keepPref : List String) (forcedPos : List (String × String))
    (sessionRules : List RuleInput) (offpref : List (String × Nat))
    (anyOff : List (String × Bool)) :
    postprocessTeams
        (TeamGenerator.generate players (some s) ambient1 history keepPref
          forcedPos)
        sessionRules offpref anyOff =
      postprocessTeams
        (TeamGenerator.generate players (some s) ambient2 history keepPref
          forcedPos)
        sessionRules offpref anyOff := rfl

/-- C3 (code_bug).  With A (at outside) forced to setter and B a clean setter
occupant, the claim (and the spec scenario) says `postprocess_teams`
completes with A and B exchanged; instead the phase-0 swap line
`teams[ti][pi], teams[ti2][pj2] = teams[ti2][pj2], teams[ti][pi]` indexes the
team dict with an integer (missing the `["players"]` access every other line
uses) and raises `KeyError` as soon as a swap candidate is found. -/
theorem C3_forced_swap_keyerror :
    postprocessTeams c3Teams c3Rules [] [] = .error "KeyError" := rfl

theorem phase0Step_skip (rules0 : List RuleEntry) (offpref : List (String × Nat))
    (idx : List (String × (Nat × Nat))) (teams : List Team) (rule : RuleEntry)
    (h : alookup idx rule.playerEmail = none) :
    phase0Step rules0 offpref idx teams rule = .ok teams := by
  simp [phase0Step, h]

theorem phase0_fold_skip (rules0 rules : List RuleEntry)
    (offpref : List (String × Nat)) (idx : List (String × (Nat × Nat)))
    (teams : List Team)
    (h : ∀ e ∈ rules, alookup idx e.playerEmail = none) :
    rules.foldlM (fun ts rule => phase0Step rules0 offpref idx ts rule) teams
      = .ok teams := by
  induction rules with
  | nil => rfl
  | cons r rs ih =>
    rw [List.foldlM_cons, phase0Step_skip rules0 offpref idx teams r
      (h r (List.mem_cons_self r rs))]
    exact ih (fun e he => h e (List.mem_cons_of_mem r he))

theorem phase1Step_skip (rules0 : List RuleEntry) (offpref : List (String × Nat))
    (idx : List (String × (Nat × Nat))) (teams : List Team) (rule : RuleEntry)
    (h : alookup idx rule.playerEmail = none) :
    phase1Step rules0 offpref idx teams rule = teams := by
  simp [phase1Step, h]

theorem phase1_fold_skip (rules0 rules : List RuleEntry)
    (offpref : List (String × Nat)) (idx : List (String × (Nat × Nat)))
    (teams : List Team)
    (h : ∀ e ∈ rules, alookup idx e.playerEmail = none) :
    rules.foldl (fun ts rule => phase1Step rules0 offpref idx ts rule) teams
      = teams := by
  induction rules with
  | nil => rfl
  | cons r rs ih =>
    rw [List.foldl_cons, phase1Step_skip rules0 offpref idx teams r
      (h r (List.mem_cons_self r rs))]
    exact ih (fun e he => h e (List.mem_cons_of_mem r he))

theorem phase2Step_skip (offpref : List (String × Nat)) (teams : List Team)
    (rule : RuleEntry)
    (h : alookup (buildIndex teams) rule.playerEmail = none) :
    phase2Step offpref teams rule = teams := by
  simp [phase2Step, h]

theorem phase2_fold_skip (rules : List RuleEntry)
    (offpref : List (String × Nat)) (teams : List Team)
    (h : ∀ e ∈ rules, alookup (buildIndex teams) e.playerEmail = none) :
    rules.foldl (phase2Step offpref) teams = teams := by
  induction rules with
  | nil => rfl
  | cons r rs ih =>
    rw [List.foldl_cons, phase2Step_skip offpref teams r
      (h r (List.mem_cons_self r rs))]
    exact ih (fun e he => h e (List.mem_cons_of_mem r he))

theorem phase3Step_skip (offpref : List (String × Nat)) (teams : List Team)
    (rule : RuleEntry)
    (h : alookup (buildIndex teams) rule.playerEmail = none) :
    phase3Step offpref teams rule = teams := by
  simp [phase3Step, h]

theorem phase3_fold_skip (rules : List RuleEntry)
    (offpref : List (String × Nat)) (teams : List Team)
    (h : ∀ e ∈ rules, alookup (buildIndex teams) e.playerEmail = none) :
    rules.foldl (phase3Step offpref) teams = teams := by
  induction rules with
  | nil => rfl
  | cons r rs ih =>
    rw [List.foldl_cons, phase3Step_skip offpref teams r
      (h r (List.mem_cons_self r rs))]
    exact ih (fun e he => h e (List.mem_cons_of_mem r he))

/-- When no normalized rule's email matches a placed player, every phase
skips every rule and `postprocess_teams` returns its input unchanged. -/
theorem postprocessTeams_miss_id (teams : List Team)
    (sessionRules : List RuleInput) (offpref : List (String × Nat))
    (anyOff : List (String × Bool))
    (h : ∀ e ∈ normalizeRules sessionRules,
      alookup (buildIndex teams) e.playerEmail = none) :
    postprocessTeams teams sessionRules offpref anyOff = .ok teams := by
  unfold postprocessTeams
  by_cases hte : teams.isEmpty
  · simp [hte]
  · by_cases hre : (normalizeRules sessionRules).isEmpty
    · simp [hte, hre]
    · have h0 : phase0 offpref (normalizeRules sessionRules) teams = .ok teams := by
        unfold phase0
        exact phase0_fold_skip _ _ _ _ _ h
      have h1 : phase1 offpref (normalizeRules sessionRules) teams = teams := by
        unfold phase1
        exact phase1_fold_skip _ _ _ _ _ h
      have h2 : phase2 offpref (normalizeRules sessionRules) teams = teams := by
        unfold phase2
        exact phase2_fold_skip _ _ _ h
      have h3 : phase3 offpref (normalizeRules sessionRules) teams = teams := by
        unfold phase3
        exact phase3_fold_skip _ _ _ h
      simp [hte, hre, h0, h1, h2, h3]

/-- C5 (corrected).  Applying `postprocess_teams` twice equals applying it
once whenever no rule's normalized player email matches a placed player (in
particular for an empty rule list): such a run returns its input unchanged. -/
theorem C5_idempotent_when_rules_miss (teams : List Team)
    (sessionRules : List RuleInput) (offpref : List (String × Nat))
    (anyOff : List (String × Bool))
    (h : ∀ e ∈ normalizeRules sessionRules,
      alookup (buildIndex teams) e.playerEmail = none) :
    (postprocessTeams teams sessionRules offpref anyOff >>= fun ts =>
        postprocessTeams ts sessionRules offpref anyOff) =
      postprocessTeams teams sessionRules offpref anyOff := by
  rw [postprocessTeams_miss_id teams sessionRules offpref anyOff h]
  simpa using postprocessTeams_miss_id teams sessionRules offpref anyOff h

/-- Counterexample to C5 as stated: the forbidden-position repair swaps P
(from forbidden middle) with C's setter — itself forbidden for P — so a
second application swaps them straight back: applying `postprocess_teams`
twice yields the original teams, not the once-processed teams. -/
theorem C5_counterexample :
    (postprocessTeams c5Teams c5Rules [] [] >>= fun ts =>
        postprocessTeams ts c5Rules [] []) ≠
      postprocessTeams c5Teams c5Rules [] [] := by decide

/-- Witness for the amended C5: a rule naming an absent player changes
nothing, so twice equals once. -/
theorem C5_idempotent_when_rules_miss_witness :
    (postprocessTeams c5Teams
        [{ playerEmail := "z@x", cannotPlayPositions := ["middle"] }] [] []
        >>= fun ts =>
          postprocessTeams ts
            [{ playerEmail := "z@x", cannotPlayPositions := ["middle"] }]
            [] []) =
      postprocessTeams c5Teams
        [{ playerEmail := "z@x", cannotPlayPositions := ["middle"] }] [] [] :=
  C5_idempotent_when_rules_miss c5Teams
    [{ playerEmail := "z@x", cannotPlayPositions := ["middle"] }] [] []
    (by decide)

theorem shapeOf_updateTeam (teams : List Team) (i : Nat) (f : Team → Team)
    (hf : ∀ t, (f t).players.length = t.players.length) :
    shapeOf (updateTeam teams i f) = shapeOf teams := by
  induction teams generalizing i with
  | nil => rfl
  | cons t ts ih =>
    cases i with
    | zero => simp [updateTeam, shapeOf, hf t]
    | succ j => simpa [updateTeam, shapeOf] using ih j

@[simp] theorem shapeOf_setEntry (teams : List Team) (ti pi : Nat) (e : Entry) :
    shapeOf (setEntry teams ti pi e) = shapeOf teams :=
  shapeOf_updateTeam teams ti _ (fun t => by simp [List.length_set])

theorem phase0Step_shape (rules0 : List RuleEntry)
    (offpref : List (String × Nat)) (idx : List (String × (Nat × Nat)))
    (teams : List Team) (rule : RuleEntry) (out : List Team)
    (h : phase0Step rules0 offpref idx teams rule = .ok out) :
    shapeOf out = shapeOf teams := by
  simp only [phase0Step] at h
  repeat' split at h
  all_goals (try simp_all)
  all_goals (subst h; simp)

theorem phase0_fold_shape (rules0 rules : List RuleEntry)
    (offpref : List (String × Nat)) (idx : List (String × (Nat × Nat))) :
    ∀ teams out : List Team,
      rules.foldlM (fun ts rule => phase0Step rules0 offpref idx ts rule) teams
        = .ok out →
      shapeOf out = shapeOf teams := by
  induction rules with
  | nil =>
    intro teams out h
    injection h with h2
    rw [← h2]
  | cons r rs ih =>
    intro teams out h
    rw [List.foldlM_cons] at h
    cases hs : phase0Step rules0 offpref idx teams r with
    | error e =>
      rw [hs] at h
      have hc : (Except.error e : Except String (List Team)) = .ok out := h
      cases hc
    | ok t1 =>
      rw [hs] at h
      exact (ih t1 out h).trans
        (phase0Step_shape rules0 offpref idx teams r t1 hs)

theorem phase1Step_shape (rules0 : List RuleEntry)
    (offpref : List (String × Nat)) (idx : List (String × (Nat × Nat)))
    (teams : List Team) (rule : RuleEntry) :
    shapeOf (phase1Step rules0 offpref idx teams rule) = shapeOf teams := by
  simp only [phase1Step]
  repeat' split
  all_goals simp

theorem phase1_fold_shape (rules0 rules : List RuleEntry)
    (offpref : List (String × Nat)) (idx : List (String × (Nat × Nat))) :
    ∀ teams : List Team,
      shapeOf (rules.foldl
        (fun ts rule => phase1Step rules0 offpref idx ts rule) teams)
        = shapeOf teams := by
  induction rules with
  | nil => intro teams; rfl
  | cons r rs ih =>
    intro teams
    rw [List.foldl_cons]
    exact (ih _).trans (phase1Step_shape rules0 offpref idx teams r)

theorem phase2MustStep_shape (offpref : List (String × Nat)) (locA : Nat × Nat)
    (teams : List Team) (otherEmail : String) :
    shapeOf (phase2MustStep offpref locA teams otherEmail) = shapeOf teams := by
  simp only [phase2MustStep]
  repeat' split
  all_goals simp

theorem phase2Step_shape (offpref : List (String × Nat)) (teams : List Team)
    (rule : RuleEntry) :
    shapeOf (phase2Step offpref teams rule) = shapeOf teams := by
  have hfold : ∀ (l : List String) (locA : Nat × Nat) (ts : List Team),
      shapeOf (l.foldl (phase2MustStep offpref locA) ts) = shapeOf ts := by
    intro l
    induction l with
    | nil => intro locA ts; rfl
    | cons x xs ih =>
      intro locA ts
      rw [List.foldl_cons]
      exact (ih locA _).trans (phase2MustStep_shape offpref locA ts x)
  simp only [phase2Step]
  repeat' split
  all_goals simp [hfold]

theorem phase2_shape (offpref : List (String × Nat)) (rules : List RuleEntry) :
    ∀ teams : List Team, shapeOf (phase2 offpref rules teams) = shapeOf teams := by
  unfold phase2
  induction rules with
  | nil => intro teams; rfl
  | cons r rs ih =>
    intro teams
    rw [List.foldl_cons]
    exact (ih _).trans (phase2Step_shape offpref teams r)

theorem phase3TryTeam_shape (offpref : List (String × Nat)) (teams : List Team)
    (tb pb : Nat) (bPos : String) (target : Nat) (out : List Team)
    (h : phase3TryTeam offpref teams tb pb bPos target = some out) :
    shapeOf out = shapeOf teams := by
  simp only [phase3TryTeam] at h
  repeat' split at h
  all_goals (try simp_all)
  all_goals (cases h; simp)

theorem firstSome_prop {α β : Type} (f : α → Option β) (P : β → Prop)
    (hf : ∀ a b, f a = some b → P b) :
    ∀ (l : List α) (b : β), firstSome f l = some b → P b := by
  intro l
  induction l with
  | nil => intro b h; cases h
  | cons x xs ih =>
    intro b h
    simp only [firstSome] at h
    cases hx : f x with
    | some y => rw [hx] at h; cases h; exact hf x _ hx
    | none => rw [hx] at h; exact ih b h

theorem phase3CannotStep_shape (offpref : List (String × Nat))
    (locA : Nat × Nat) (teams : List Team) (otherEmail : String) :
    shapeOf (phase3CannotStep offpref locA teams otherEmail) = shapeOf teams := by
  simp only [phase3CannotStep]
  repeat' split
  all_goals try simp
  case _ ts hts =>
    exact firstSome_prop _ (fun b => shapeOf b = shapeOf teams)
      (fun a b hb => phase3TryTeam_shape offpref teams _ _ _ a b hb) _ ts hts

theorem phase3Step_shape (offpref : List (String × Nat)) (teams : List Team)
    (rule : RuleEntry) :
    shapeOf (phase3Step offpref teams rule) = shapeOf teams := by
  have hfold : ∀ (l : List String) (locA : Nat × Nat) (ts : List Team),
      shapeOf (l.foldl (phase3CannotStep offpref locA) ts) = shapeOf ts := by
    intro l
    induction l with
    | nil => intro locA ts; rfl
    | cons x xs ih =>
      intro locA ts
      rw [List.foldl_cons]
      exact (ih locA _).trans (phase3CannotStep_shape offpref locA ts x)
  simp only [phase3Step]
  repeat' split
  all_goals simp [hfold]

theorem phase3_shape (offpref : List (String × Nat)) (rules : List RuleEntry) :
    ∀ teams : List Team, shapeOf (phase3 offpref rules teams) = shapeOf teams := by
  unfold phase3
  induction rules with
  | nil => intro teams; rfl
  | cons r rs ih =>
    intro teams
    rw [List.foldl_cons]
    exact (ih _).trans (phase3Step_shape offpref teams r)

theorem phase1_shape (offpref : List (String × Nat)) (rules : List RuleEntry)
    (teams : List Team) :
    shapeOf (phase1 offpref rules teams) = shapeOf teams :=
  phase1_fold_shape rules rules offpref (buildIndex teams) teams

theorem phase0_shape (offpref : List (String × Nat)) (rules : List RuleEntry)
    (teams out : List Team) (h : phase0 offpref rules teams = .ok out) :
    shapeOf out = shapeOf teams :=
  phase0_fold_shape rules rules offpref (buildIndex teams) teams out h

/-- C7 (confirmed).  No repair phase of `postprocess_teams` changes any
team's player-entry count (nor the number of teams): phases 1–3 preserve the
per-team count list unconditionally, phase 0 preserves it whenever it
completes, and so does the whole of `postprocess_teams` whenever it returns a
result. -/
theorem C7_phases_preserve_counts :
    (∀ (offpref : List (String × Nat)) (rules : List RuleEntry)
        (teams out : List Team),
      phase0 offpref rules teams = .ok out → shapeOf out = shapeOf teams) ∧
    (∀ (offpref : List (String × Nat)) (rules : List RuleEntry)
        (teams : List Team),
      shapeOf (phase1 offpref rules teams) = shapeOf teams) ∧
    (∀ (offpref : List (String × Nat)) (rules : List RuleEntry)
        (teams : List Team),
      shapeOf (phase2 offpref rules teams) = shapeOf teams) ∧
    (∀ (offpref : List (String × Nat)) (rules : List RuleEntry)
        (teams : List Team),
      shapeOf (phase3 offpref rules teams) = shapeOf teams) ∧
    (∀ (teams : List Team) (sessionRules : List RuleInput)
        (offpref : List (String × Nat)) (anyOff : List (String × Bool))
        (out : List Team),
      postprocessTeams teams sessionRules offpref anyOff = .ok out →
      shapeOf out = shapeOf teams) := by
  refine ⟨phase0_shape, phase1_shape, phase2_shape, phase3_shape, ?_⟩
  intro teams sessionRules offpref anyOff out h
  unfold postprocessTeams at h
  by_cases hte : teams.isEmpty
  · simp [hte] at h; rw [← h]
  · by_cases hre : (normalizeRules sessionRules).isEmpty
    · simp [hte, hre] at h; rw [← h]
    · simp only [hte, hre, if_false, Bool.false_eq_true] at h
      cases h0 : phase0 offpref (normalizeRules sessionRules) teams with
      | error e => rw [h0] at h; cases h
      | ok t0 =>
        rw [h0] at h
        injection h with h2
        rw [← h2, phase3_shape, phase2_shape, phase1_shape]
        exact phase0_shape _ _ _ _ h0

/-- Witness for C7 on a concrete team list: the empty-rule run returns the
input, and every phase keeps the count list [2]. -/
theorem C7_phases_preserve_counts_witness :
    (shapeOf c5Teams = shapeOf c5Teams) ∧
    (shapeOf (phase1 [] [] c5Teams) = shapeOf c5Teams) ∧
    (shapeOf (postprocessTeams c5Teams c5Rules [] []).toOption.get! = shapeOf c5Teams) := by
  refine ⟨C7_phases_preserve_counts.1 [] [] c5Teams c5Teams (by decide),
    C7_phases_preserve_counts.2.1 [] [] c5Teams, ?_⟩
  exact C7_phases_preserve_counts.2.2.2.2 c5Teams c5Rules [] [] _ (by decide)

theorem updateTeam_length : ∀ (teams : List Team) (i : Nat) (f : Team → Team),
    (updateTeam teams i f).length = teams.length
  | [], _, _ => rfl
  | _ :: ts, 0, _ => rfl
  | _ :: ts, i + 1, f => by simp [updateTeam, updateTeam_length ts i f]

theorem mem_updateTeam : ∀ (teams : List Team) (i : Nat) (f : Team → Team)
    (t : Team), t ∈ updateTeam teams i f → t ∈ teams ∨ ∃ t0 ∈ teams, t = f t0
  | [], _, _, _, h => Or.inl h
  | u :: ts, 0, f, t, h => by
    rcases List.mem_cons.mp h with h1 | h1
    · exact Or.inr ⟨u, List.mem_cons_self u ts, h1⟩
    · exact Or.inl (List.mem_cons_of_mem u h1)
  | u :: ts, i + 1, f, t, h => by
    rcases List.mem_cons.mp h with h1 | h1
    · exact Or.inl (h1 ▸ List.mem_cons_self u ts)
    · rcases mem_updateTeam ts i f t h1 with h2 | ⟨t0, ht0, he⟩
      · exact Or.inl (List.mem_cons_of_mem u h2)
      · exact Or.inr ⟨t0, List.mem_cons_of_mem u ht0, he⟩

theorem totalCount_updateTeam_add (f : Team → Team) (k : Nat)
    (hf : ∀ t, (f t).players.length = t.players.length + k) :
    ∀ (teams : List Team) (i : Nat), i < teams.length →
      totalCount (updateTeam teams i f) = totalCount teams + k
  | [], i, h => absurd h (by simp)
  | t :: ts, 0, _ => by
    simp only [updateTeam, totalCount, shapeOf, List.map_cons, List.sum_cons,
      hf t]
    omega
  | t :: ts, i + 1, h => by
    have hi : i < ts.length := by simpa using h
    simp only [updateTeam, totalCount, shapeOf, List.map_cons, List.sum_cons]
    have := totalCount_updateTeam_add f k hf ts i hi
    simp only [totalCount, shapeOf] at this
    omega

theorem totalCount_updateTeam_eq (f : Team → Team)
    (hf : ∀ t, (f t).players.length = t.players.length)
    (teams : List Team) (i : Nat) :
    totalCount (updateTeam teams i f) = totalCount teams := by
  unfold totalCount
  rw [shapeOf_updateTeam teams i f hf]

theorem shuffleGo_length : ∀ (fuel : Nat) (rng : Rng) (xs : List Player),
    (shuffleGo fuel rng xs).1.length = xs.length := by
  intro fuel
  induction fuel with
  | zero => intro rng xs; rfl
  | succ n ih =>
    intro rng xs
    cases xs with
    | nil => rfl
    | cons x rest =>
      simp only [shuffleGo, Rng.next]
      have hlen := ih { stream := rng.stream, k := rng.k + 1 }
        ((x :: rest).eraseIdx (rng.stream rng.k % (x :: rest).length))
      have hk : rng.stream rng.k % (x :: rest).length < (x :: rest).length :=
        Nat.mod_lt _ (by simp)
      have := List.length_eraseIdx_add_one hk
      simp only [List.length_cons] at *
      omega

theorem shuffleGo_mem : ∀ (fuel : Nat) (rng : Rng) (xs : List Player)
    (p : Player), p ∈ (shuffleGo fuel rng xs).1 → p ∈ xs := by
  intro fuel
  induction fuel with
  | zero => intro rng xs p h; exact h
  | succ n ih =>
    intro rng xs p h
    cases xs with
    | nil => exact h
    | cons x rest =>
      simp only [shuffleGo, Rng.next] at h
      rcases List.mem_cons.mp h with h1 | h1
      · subst h1
        have hk : rng.stream rng.k % (x :: rest).length < (x :: rest).length :=
          Nat.mod_lt _ (by simp)
        rw [List.getD_eq_getElem (x :: rest) x hk]
        exact List.getElem_mem hk
      · exact List.mem_of_mem_eraseIdx
          (ih { stream := rng.stream, k := rng.k + 1 }
            ((x :: rest).eraseIdx (rng.stream rng.k % (x :: rest).length)) p h1)

theorem pickBestGo_mem :
    ∀ (l : List ((Nat × Nat × Nat) × Player)) (rng : Rng)
      (best : ((Nat × Nat × Nat) × Nat) × Player) (p : Player) (rng2 : Rng),
      pickBestGo l rng best = (some p, rng2) →
      p = best.2 ∨ ∃ r, (r, p) ∈ l := by
  intro l
  induction l with
  | nil =>
    intro rng best p rng2 h
    simp only [pickBestGo, Prod.mk.injEq] at h
    exact Or.inl (Option.some.inj h.1).symm
  | cons hd rest ih =>
    intro rng best p rng2 h
    obtain ⟨r, q⟩ := hd
    simp only [pickBestGo, Rng.next] at h
    split at h
    · rcases ih _ _ _ _ h with h1 | ⟨r2, h2⟩
      · exact Or.inr ⟨r, by rw [h1]; exact List.mem_cons_self _ _⟩
      · exact Or.inr ⟨r2, List.mem_cons_of_mem _ h2⟩
    · rcases ih _ _ _ _ h with h1 | ⟨r2, h2⟩
      · exact Or.inl h1
      · exact Or.inr ⟨r2, List.mem_cons_of_mem _ h2⟩

theorem pickBest_mem (l : List ((Nat × Nat × Nat) × Player)) (rng : Rng)
    (p : Player) (rng2 : Rng) (h : pickBest l rng = (some p, rng2)) :
    ∃ r, (r, p) ∈ l := by
  cases l with
  | nil =>
    injection h with h1 h2
    exact Option.noConfusion h1
  | cons hd rest =>
    obtain ⟨r, q⟩ := hd
    simp only [pickBest, Rng.next] at h
    rcases pickBestGo_mem _ _ _ _ _ h with h1 | ⟨r2, h2⟩
    · exact ⟨r, by rw [h1]; exact List.mem_cons_self _ _⟩
    · exact ⟨r2, List.mem_cons_of_mem _ h2⟩

theorem rankPass_mem (R : SlotRanker) (remaining : List Player) (pos : String)
    (thf df relaxed : Bool) (r : Nat × Nat × Nat) (p : Player)
    (h : (r, p) ∈ rankPass R remaining pos thf df relaxed) :
    p ∈ remaining ∧ R.rankForSlot p pos thf df relaxed = some r := by
  simp only [rankPass, List.mem_filterMap] at h
  obtain ⟨a, ha, hfa⟩ := h
  cases hr : R.rankForSlot a pos thf df relaxed with
  | none => rw [hr] at hfa; cases hfa
  | some v =>
    rw [hr] at hfa
    simp only [Option.map, Option.some.injEq, Prod.mk.injEq] at hfa
    obtain ⟨hv, hap⟩ := hfa
    subst hap
    rw [hv] at hr
    exact ⟨ha, hr⟩

theorem argmin_fold_lt (g : Nat → Nat) (n : Nat) :
    ∀ (l : List Nat) (b : Nat), b < n → (∀ i ∈ l, i < n) →
      (l.foldl (fun best i => if g i < g best then i else best) b) < n := by
  intro l
  induction l with
  | nil => intro b hb _; exact hb
  | cons x xs ih =>
    intro b hb hl
    rw [List.foldl_cons]
    by_cases hc : g x < g b
    · simp only [hc, if_true]
      exact ih x (hl x (List.mem_cons_self x xs))
        (fun i hi => hl i (List.mem_cons_of_mem x hi))
    · simp only [hc, if_false]
      exact ih b hb (fun i hi => hl i (List.mem_cons_of_mem x hi))

theorem argmin_fold_min (g : Nat → Nat) :
    ∀ (l : List Nat) (b j : Nat), j = b ∨ j ∈ l →
      g (l.foldl (fun best i => if g i < g best then i else best) b) ≤ g j := by
  intro l
  induction l with
  | nil =>
    intro b j hj
    rcases hj with hj | hj
    · rw [hj]
      exact Nat.le_refl _
    · cases hj
  | cons x xs ih =>
    intro b j hj
    rw [List.foldl_cons]
    by_cases hc : g x < g b
    · simp only [hc, if_true]
      rcases hj with hj | hj
      · exact le_trans (ih x x (Or.inl rfl)) (le_of_lt (hj ▸ hc))
      · rcases List.mem_cons.mp hj with hj1 | hj1
        · exact hj1 ▸ ih x x (Or.inl rfl)
        · exact ih x j (Or.inr hj1)
    · simp only [hc, if_false]
      rcases hj with hj | hj
      · exact hj ▸ ih b b (Or.inl rfl)
      · rcases List.mem_cons.mp hj with hj1 | hj1
        · exact le_trans (ih b b (Or.inl rfl))
            (hj1 ▸ Nat.le_of_not_lt hc)
        · exact ih b j (Or.inr hj1)

theorem argminIdx_lt (teams : List Team) (h : teams ≠ []) :
    argminIdx teams < teams.length := by
  unfold argminIdx
  exact argmin_fold_lt (fun i => realCount (teams.getD i default)) teams.length
    (List.range teams.length) 0
    (List.length_pos.mpr h) (fun i hi => List.mem_range.mp hi)

theorem argminIdx_min (teams : List Team) (j : Nat) (hj : j < teams.length) :
    realCount (teams.getD (argminIdx teams) default)
      ≤ realCount (teams.getD j default) := by
  unfold argminIdx
  exact argmin_fold_min (fun i => realCount (teams.getD i default))
    (List.range teams.length) 0 j
    (by rcases Nat.eq_zero_or_pos j with h0 | h0
        · exact Or.inl h0
        · exact Or.inr (List.mem_range.mpr hj))

theorem fillRanked_mem (R : SlotRanker) (tCount tF tIdx : Nat) (st : GenState)
    (pos : String) (r : Nat × Nat × Nat) (p : Player)
    (h : (r, p) ∈ fillRanked R tCount tF tIdx st pos) :
    p ∈ st.remaining ∧
      ∃ relaxed, R.rankForSlot p pos (teamHasF (st.teams.getD tIdx default))
        (decide ((st.teams.filter teamHasF).length ≥ min tCount tF)) relaxed
        = some r := by
  simp only [fillRanked] at h
  split at h
  · exact ⟨(rankPass_mem _ _ _ _ _ _ _ _ h).1,
      true, (rankPass_mem _ _ _ _ _ _ _ _ h).2⟩
  · exact ⟨(rankPass_mem _ _ _ _ _ _ _ _ h).1,
      false, (rankPass_mem _ _ _ _ _ _ _ _ h).2⟩

theorem fillPos_count (R : SlotRanker) (tCount tF tIdx : Nat) (st : GenState)
    (pos : String) (hidx : tIdx < st.teams.length) :
    totalCount (fillPos R tCount tF tIdx st pos).teams
        + (fillPos R tCount tF tIdx st pos).remaining.length
      = totalCount st.teams + st.remaining.length ∧
    (fillPos R tCount tF tIdx st pos).teams.length = st.teams.length ∧
    (∀ p, p ∈ (fillPos R tCount tF tIdx st pos).remaining →
      p ∈ st.remaining) := by
  unfold fillPos
  cases hpb : pickBest (fillRanked R tCount tF tIdx st pos) st.rng with
  | mk o rng1 =>
    cases o with
    | none => exact ⟨rfl, rfl, fun p hp => hp⟩
    | some pick =>
      obtain ⟨r, hr⟩ := pickBest_mem _ _ _ _ hpb
      have hmem : pick ∈ st.remaining :=
        (fillRanked_mem R tCount tF tIdx st pos r pick hr).1
      have hadd := totalCount_updateTeam_add
        (fun t => { t with players := t.players ++ [placeEntry pick pos] }) 1
        (fun t => by simp) st.teams tIdx hidx
      have hel : (st.remaining.erase pick).length + 1 = st.remaining.length := by
        have h2 := List.length_pos_of_mem hmem
        rw [List.length_erase_of_mem hmem]
        omega
      refine ⟨?_, by simp [updateTeam_length], ?_⟩
      · simp only
        omega
      · intro p hp
        exact List.mem_of_mem_erase hp

theorem fillPos_fold_count (R : SlotRanker) (tCount tF tIdx : Nat) :
    ∀ (tmpl : List String) (st : GenState), tIdx < st.teams.length →
      (totalCount (tmpl.foldl (fillPos R tCount tF tIdx) st).teams
          + (tmpl.foldl (fillPos R tCount tF tIdx) st).remaining.length
        = totalCount st.teams + st.remaining.length) ∧
      (tmpl.foldl (fillPos R tCount tF tIdx) st).teams.length
        = st.teams.length := by
  intro tmpl
  induction tmpl with
  | nil => intro st _; exact ⟨rfl, rfl⟩
  | cons x xs ih =>
    intro st h
    rw [List.foldl_cons]
    obtain ⟨h1, h2, _⟩ := fillPos_count R tCount tF tIdx st x h
    obtain ⟨h3, h4⟩ := ih (fillPos R tCount tF tIdx st x) (h2 ▸ h)
    exact ⟨by omega, by omega⟩

theorem fillTeam_count (R : SlotRanker) (tCount tF : Nat) (st : GenState)
    (it : Nat × List String) (hidx : it.1 < st.teams.length) :
    totalCount (fillTeam R tCount tF st it).teams
        + (fillTeam R tCount tF st it).remaining.length
      = totalCount st.teams + st.remaining.length ∧
    (fillTeam R tCount tF st it).teams.length = st.teams.length := by
  have hf2 : ∀ t : Team,
      ((fun t : Team =>
        if t.size == 7 && !t.players.isEmpty then
          { t with extraPlayerIndex := some (t.players.length - 1) }
        else t) t).players.length = t.players.length := by
    intro t
    by_cases hc : (t.size == 7 && !t.players.isEmpty) = true <;> simp [hc]
  simp only [fillTeam]
  split
  · -- 5-slot template: the missing marker is set first
    have hmiss : ∀ t : Team,
        ((fun t : Team => { t with missing := some "middle" }) t).players.length
          = t.players.length := fun t => rfl
    obtain ⟨hA, hB⟩ := fillPos_fold_count R tCount tF it.1 it.2
      { st with teams :=
          (updateTeam st.teams it.1 (fun t => { t with missing := some "middle" })) }
      (by simpa [updateTeam_length] using hidx)
    constructor
    · rw [totalCount_updateTeam_eq _ hf2]
      simp only at hA
      rw [totalCount_updateTeam_eq _ hmiss] at hA
      exact hA
    · rw [updateTeam_length, hB]
      simp [updateTeam_length]
  · obtain ⟨hA, hB⟩ := fillPos_fold_count R tCount tF it.1 it.2 st hidx
    constructor
    · rw [totalCount_updateTeam_eq _ hf2]
      exact hA
    · rw [updateTeam_length, hB]

theorem fillTeams_fold_count (R : SlotRanker) (tCount tF : Nat) :
    ∀ (l : List (Nat × List String)) (st : GenState),
      (∀ it ∈ l, it.1 < st.teams.length) →
      (totalCount (l.foldl (fillTeam R tCount tF) st).teams
          + (l.foldl (fillTeam R tCount tF) st).remaining.length
        = totalCount st.teams + st.remaining.length) ∧
      (l.foldl (fillTeam R tCount tF) st).teams.length = st.teams.length := by
  intro l
  induction l with
  | nil => intro st _; exact ⟨rfl, rfl⟩
  | cons x xs ih =>
    intro st h
    rw [List.foldl_cons]
    obtain ⟨h1, h2⟩ := fillTeam_count R tCount tF st x
      (h x (List.mem_cons_self x xs))
    obtain ⟨h3, h4⟩ := ih (fillTeam R tCount tF st x)
      (fun it hit => h2 ▸ h it (List.mem_cons_of_mem x hit))
    exact ⟨by omega, by omega⟩

theorem mkTeams_length (templates : List (List String)) :
    (mkTeams templates).length = templates.length := by
  simp [mkTeams]

theorem sum_map_zero_fun {α : Type} (f : α → Nat) (hf : ∀ a, f a = 0) :
    ∀ l : List α, (l.map f).sum = 0
  | [] => rfl
  | x :: xs => by simp [hf x, sum_map_zero_fun f hf xs]

theorem mkTeams_totalCount (templates : List (List String)) :
    totalCount (mkTeams templates) = 0 := by
  simp only [totalCount, shapeOf, mkTeams, List.map_map]
  exact sum_map_zero_fun _ (fun a => rfl) _

theorem plan_snd_length_pos (n : Nat) (h : 0 < n) :
    0 < (TemplatePlanner.plan n).2.length := by
  simp only [TemplatePlanner.plan]
  split_ifs <;>
    simp_all only [beq_iff_eq, Bool.or_eq_true, not_or,
      List.length_replicate, List.length_append] <;>
    omega

theorem enum_fst_lt {α : Type} (l : List α) (it : Nat × α) (h : it ∈ l.enum) :
    it.1 < l.length := by
  have h2 := List.mem_enum_iff_getElem?.mp h
  exact (List.getElem?_eq_some.mp h2).1

theorem leftoverAdd_players_len (p : Player) : ∀ t : Team,
    ((fun t : Team =>
      let t1 := { t with players := t.players ++ [leftoverEntry p] }
      if t1.size == 7 then
        { t1 with extraPlayerIndex := some (t1.players.length - 1) }
      else t1) t).players.length = t.players.length + 1 := by
  intro t
  by_cases hc : (t.size == 7) = true <;> simp [hc]

theorem leftoverAdd_length (teams : List Team) (p : Player) :
    (leftoverAdd teams p).length = teams.length := by
  unfold leftoverAdd
  exact updateTeam_length _ _ _

theorem leftoverAdd_count (teams : List Team) (p : Player) (h : teams ≠ []) :
    totalCount (leftoverAdd teams p) = totalCount teams + 1 := by
  unfold leftoverAdd
  exact totalCount_updateTeam_add _ 1 (leftoverAdd_players_len p) teams
    (argminIdx teams) (argminIdx_lt teams h)

theorem distributeLeftovers_count : ∀ (rem : List Player) (teams : List Team),
    teams ≠ [] →
    totalCount (distributeLeftovers teams rem) = totalCount teams + rem.length := by
  intro rem
  induction rem with
  | nil => intro teams _; rfl
  | cons p rest ih =>
    intro teams hne
    simp only [distributeLeftovers]
    have hne2 : leftoverAdd teams p ≠ [] := by
      intro hc
      have := leftoverAdd_length teams p
      rw [hc] at this
      exact hne (List.length_eq_zero.mp this.symm)
    rw [ih (leftoverAdd teams p) hne2, leftoverAdd_count teams p hne,
      List.length_cons]
    omega

theorem generateFromShuffled_count (R : SlotRanker) (shuffled : List Player)
    (rng : Rng) (h : shuffled ≠ []) :
    totalCount (generateFromShuffled R shuffled rng) = shuffled.length := by
  simp only [generateFromShuffled]
  have hpos : 0 < (TemplatePlanner.plan shuffled.length).2.length :=
    plan_snd_length_pos _ (List.length_pos.mpr h)
  obtain ⟨hA, hB⟩ := fillTeams_fold_count R
    (mkTeams (TemplatePlanner.plan shuffled.length).2).length (totalF shuffled)
    (TemplatePlanner.plan shuffled.length).2.enum
    { teams := mkTeams (TemplatePlanner.plan shuffled.length).2,
      remaining := shuffled, rng := rng }
    (fun it hit => by
      simpa [mkTeams_length] using enum_fst_lt _ it hit)
  have hne2 : ((TemplatePlanner.plan shuffled.length).2.enum.foldl
      (fillTeam R (mkTeams (TemplatePlanner.plan shuffled.length).2).length
        (totalF shuffled))
      { teams := mkTeams (TemplatePlanner.plan shuffled.length).2,
        remaining := shuffled, rng := rng }).teams ≠ [] := by
    intro hc
    rw [hc] at hB
    simp only [List.length_nil, mkTeams_length] at hB
    omega
  rw [distributeLeftovers_count _ _ hne2]
  simp only [mkTeams_totalCount] at hA
  omega

theorem pyShuffle_length (players : List Player) (rng : Rng) :
    (pyShuffle players rng).1.length = players.length :=
  shuffleGo_length _ _ _

theorem pyShuffle_ne_nil (players : List Player) (rng : Rng)
    (h : players ≠ []) : (pyShuffle players rng).1 ≠ [] := by
  intro hc
  have h1 := pyShuffle_length players rng
  rw [hc] at h1
  exact h (List.length_eq_zero.mp h1.symm)

theorem generate_count (players : List Player) (seed : Option Int)
    (ambient : Nat → Nat) (history : HistoryFairness) (keep : List String)
    (forced : List (String × String)) :
    totalCount (TeamGenerator.generate players seed ambient history keep forced)
      = players.length := by
  simp only [TeamGenerator.generate]
  split
  · next hP =>
    rw [List.isEmpty_iff.mp hP]
    rfl
  · next hP =>
    have hPne : players ≠ [] := by
      intro hc
      rw [hc] at hP
      exact hP rfl
    rw [generateFromShuffled_count _ _ _ (pyShuffle_ne_nil players _ hPne),
      pyShuffle_length]

theorem leftoverAdd_entries (teams : List Team) (p : Player) (t : Team)
    (e : Entry) (ht : t ∈ leftoverAdd teams p) (he : e ∈ t.players) :
    (∃ t0 ∈ teams, e ∈ t0.players) ∨ e = leftoverEntry p := by
  unfold leftoverAdd at ht
  rcases mem_updateTeam _ _ _ _ ht with h1 | ⟨t0, ht0, hf⟩
  · exact Or.inl ⟨t, h1, he⟩
  · subst hf
    simp only at he
    split at he <;>
      simp only [List.mem_append, List.mem_singleton] at he <;>
      rcases he with h2 | h2
    · exact Or.inl ⟨t0, ht0, h2⟩
    · exact Or.inr h2
    · exact Or.inl ⟨t0, ht0, h2⟩
    · exact Or.inr h2

theorem distributeLeftovers_entries :
    ∀ (rem : List Player) (teams : List Team) (t : Team) (e : Entry),
      t ∈ distributeLeftovers teams rem → e ∈ t.players →
      (∃ t0 ∈ teams, e ∈ t0.players) ∨ ∃ p ∈ rem, e = leftoverEntry p := by
  intro rem
  induction rem with
  | nil => intro teams t e ht he; exact Or.inl ⟨t, ht, he⟩
  | cons p rest ih =>
    intro teams t e ht he
    simp only [distributeLeftovers] at ht
    rcases ih (leftoverAdd teams p) t e ht he with ⟨t0, ht0, he0⟩ | ⟨q, hq, heq2⟩
    · rcases leftoverAdd_entries teams p t0 e ht0 he0 with h1 | h1
      · exact Or.inl h1
      · exact Or.inr ⟨p, List.mem_cons_self p rest, h1⟩
    · exact Or.inr ⟨q, List.mem_cons_of_mem p hq, heq2⟩

theorem fillPos_skip (R : SlotRanker) (tCount tF tIdx : Nat) (st : GenState)
    (pos : String) (h : fillRanked R tCount tF tIdx st pos = []) :
    (fillPos R tCount tF tIdx st pos).teams = st.teams ∧
    (fillPos R tCount tF tIdx st pos).remaining = st.remaining := by
  unfold fillPos
  rw [h]
  exact ⟨rfl, rfl⟩

/-- C8 (confirmed).  Generation is total and best-effort: every roster player
ends up placed exactly once (the total entry count equals the roster size,
leftovers included); a slot whose strict and relaxed candidate lists are both
empty leaves the team and the pool unchanged and filling continues; the
leftover loop appends players as `outside`, each to a team whose real-member
count is minimal at that step. -/
theorem C8_generate_best_effort :
    (∀ (players : List Player) (seed : Option Int) (ambient : Nat → Nat)
        (history : HistoryFairness) (keep : List String)
        (forced : List (String × String)),
      totalCount (TeamGenerator.generate players seed ambient history keep
        forced) = players.length) ∧
    (∀ (R : SlotRanker) (tCount tF tIdx : Nat) (st : GenState) (pos : String),
      fillRanked R tCount tF tIdx st pos = [] →
      (fillPos R tCount tF tIdx st pos).teams = st.teams ∧
      (fillPos R tCount tF tIdx st pos).remaining = st.remaining) ∧
    (∀ teams : List Team, teams ≠ [] →
      argminIdx teams < teams.length ∧
      ∀ j, j < teams.length →
        realCount (teams.getD (argminIdx teams) default)
          ≤ realCount (teams.getD j default)) ∧
    (∀ (rem : List Player) (teams : List Team) (t : Team) (e : Entry),
      t ∈ distributeLeftovers teams rem → e ∈ t.players →
      (∃ t0 ∈ teams, e ∈ t0.players) ∨ ∃ p ∈ rem, e = leftoverEntry p) ∧
    (∀ p : Player, (leftoverEntry p).pos = "outside") := by
  refine ⟨generate_count, fillPos_skip, ?_, distributeLeftovers_entries,
    fun p => rfl⟩
  intro teams hne
  exact ⟨argminIdx_lt teams hne, fun j hj => argminIdx_min teams j hj⟩

/-- Witness for C8 at concrete inputs: a one-player roster is fully placed; a
state with an empty pool skips its slot; the argmin team of the concrete C5
team list is team 0; a leftover is appended as outside. -/
theorem C8_generate_best_effort_witness :
    (totalCount (TeamGenerator.generate [rS] (some 0) (fun _ => 0) {} [] [])
      = ([rS] : List Player).length) ∧
    ((fillPos { history := {} } 1 0 0
        { teams := [], remaining := [], rng := { stream := fun _ => 0, k := 0 } }
        "middle").teams = ([] : List Team) ∧
      (fillPos { history := {} } 1 0 0
        { teams := [], remaining := [], rng := { stream := fun _ => 0, k := 0 } }
        "middle").remaining = ([] : List Player)) ∧
    (argminIdx c5Teams < c5Teams.length ∧
      realCount (c5Teams.getD (argminIdx c5Teams) default)
        ≤ realCount (c5Teams.getD 0 default)) ∧
    ((∃ t0 ∈ c5Teams,
        leftoverEntry rA ∈ t0.players) ∨
      ∃ p ∈ ([rA] : List Player), leftoverEntry rA = leftoverEntry p) ∧
    (leftoverEntry rA).pos = "outside" := by
  refine ⟨C8_generate_best_effort.1 [rS] (some 0) (fun _ => 0) {} [] [],
    C8_generate_best_effort.2.1 { history := {} } 1 0 0
      { teams := [], remaining := [], rng := { stream := fun _ => 0, k := 0 } }
      "middle" (by decide),
    ⟨(C8_generate_best_effort.2.2.1 c5Teams (by decide)).1,
      (C8_generate_best_effort.2.2.1 c5Teams (by decide)).2 0 (by decide)⟩,
    C8_generate_best_effort.2.2.2.1 [rA] c5Teams
      ((distributeLeftovers c5Teams [rA]).getD 0 default)
      (leftoverEntry rA) (by decide) (by decide),
    C8_generate_best_effort.2.2.2.2 rA⟩

theorem list_set_getD {α : Type} [Inhabited α] :
    ∀ (l : List α) (i : Nat) (a : α) (j : Nat),
      (l.set i a).getD j default
        = if i = j ∧ i < l.length then a else l.getD j default
  | [], i, a, j => by simp
  | x :: xs, 0, a, 0 => by simp
  | x :: xs, 0, a, j + 1 => by simp [List.set]
  | x :: xs, i + 1, a, 0 => by simp [List.set]
  | x :: xs, i + 1, a, j + 1 => by
    simp only [List.set, List.getD_cons_succ, List.length_cons]
    rw [list_set_getD xs i a j]
    by_cases hc : i = j ∧ i < xs.length
    · rw [if_pos hc, if_pos ⟨by omega, by omega⟩]
    · rw [if_neg hc, if_neg (by omega)]

theorem updateTeam_getD :
    ∀ (teams : List Team) (i : Nat) (f : Team → Team) (j : Nat),
      (updateTeam teams i f).getD j default
        = if i = j ∧ i < teams.length then f (teams.getD i default)
          else teams.getD j default
  | [], i, f, j => by simp [updateTeam]
  | t :: ts, 0, f, 0 => by simp [updateTeam]
  | t :: ts, 0, f, j + 1 => by simp [updateTeam]
  | t :: ts, i + 1, f, 0 => by simp [updateTeam]
  | t :: ts, i + 1, f, j + 1 => by
    simp only [updateTeam, List.getD_cons_succ, List.length_cons]
    rw [updateTeam_getD ts i f j]
    by_cases hc : i = j ∧ i < ts.length
    · rw [if_pos hc, if_pos ⟨by omega, by omega⟩]
    · rw [if_neg hc, if_neg (by omega)]

theorem getEntry_setEntry (teams : List Team) (ti pi : Nat) (e : Entry)
    (tj pj : Nat) :
    getEntry (setEntry teams ti pi e) tj pj = getEntry teams tj pj ∨
    getEntry (setEntry teams ti pi e) tj pj = e := by
  unfold getEntry setEntry
  rw [updateTeam_getD]
  by_cases hc : ti = tj ∧ ti < teams.length
  · rw [if_pos hc]
    simp only
    rw [← hc.1, list_set_getD]
    by_cases hp : pi = pj ∧ pi < (teams.getD ti default).players.length
    · rw [if_pos hp]
      exact Or.inr rfl
    · rw [if_neg hp]
      rw [hc.1]
      exact Or.inl rfl
  · rw [if_neg hc]
    exact Or.inl rfl

theorem getEntry_setEntry_email (teams : List Team) (ti pi : Nat) (e : Entry)
    (he : e.email = (getEntry teams ti pi).email) (tj pj : Nat) :
    (getEntry (setEntry teams ti pi e) tj pj).email
      = (getEntry teams tj pj).email := by
  unfold getEntry setEntry
  rw [updateTeam_getD]
  by_cases hc : ti = tj ∧ ti < teams.length
  · rw [if_pos hc]
    simp only
    rw [← hc.1, list_set_getD]
    by_cases hp : pi = pj ∧ pi < (teams.getD ti default).players.length
    · rw [if_pos hp]
      rw [he]
      unfold getEntry
      rw [hc.1, hp.1]
    · rw [if_neg hp, hc.1]
  · rw [if_neg hc]

theorem mem_setEntry (teams : List Team) (ti pi : Nat) (e : Entry) (t : Team)
    (ht : t ∈ setEntry teams ti pi e) (x : Entry) (hx : x ∈ t.players) :
    (∃ t0 ∈ teams, x ∈ t0.players) ∨ x = e := by
  unfold setEntry at ht
  rcases mem_updateTeam _ _ _ _ ht with h1 | ⟨t0, ht0, hf⟩
  · exact Or.inl ⟨t, h1, hx⟩
  · subst hf
    simp only at hx
    rcases List.mem_or_eq_of_mem_set hx with h2 | h2
    · exact Or.inl ⟨t0, ht0, h2⟩
    · exact Or.inr h2

theorem getEntry_cases (teams : List Team) (ti pi : Nat) :
    (∃ t0 ∈ teams, getEntry teams ti pi ∈ t0.players) ∨
    getEntry teams ti pi = default := by
  unfold getEntry
  by_cases ht : ti < teams.length
  · by_cases hp : pi < (teams.getD ti default).players.length
    · refine Or.inl ⟨teams.getD ti default, ?_, ?_⟩
      · rw [List.getD_eq_getElem teams default ht]
        exact List.getElem_mem ht
      · rw [List.getD_eq_getElem _ default hp]
        exact List.getElem_mem hp
    · right
      rw [List.getD_eq_default _ default (by omega)]
  · right
    rw [List.getD_eq_default teams default (by omega)]
    rfl

theorem alookup_mem {α : Type} (d : List (String × α)) (k : String) (v : α)
    (h : alookup d k = some v) : (k, v) ∈ d := by
  simp only [alookup] at h
  cases hf : d.find? (fun kv => kv.1 == k) with
  | none => rw [hf] at h; cases h
  | some kv =>
    rw [hf] at h
    simp only [Option.map, Option.some.injEq] at h
    have hm := List.mem_of_find?_eq_some hf
    have hp := List.find?_some hf
    have hk : kv.1 = k := by simpa using hp
    have : (k, v) = kv := by
      rw [← hk, ← h]
    rw [this]
    exact hm

theorem dictInsert_forall {α : Type} (P : String × α → Prop)
    (d : List (String × α)) (k : String) (v : α)
    (hd : ∀ kv ∈ d, P kv) (hkv : P (k, v)) :
    ∀ kv ∈ dictInsert d k v, P kv := by
  intro kv hkv2
  unfold dictInsert at hkv2
  split at hkv2
  · obtain ⟨kv0, hkv0, heq⟩ := List.mem_map.mp hkv2
    by_cases hc : (kv0.1 == k) = true
    · rw [if_pos hc] at heq
      exact heq ▸ hkv
    · rw [if_neg hc] at heq
      exact heq ▸ hd kv0 hkv0
  · rcases List.mem_append.mp hkv2 with h1 | h1
    · exact hd kv h1
    · exact (List.mem_singleton.mp h1) ▸ hkv

theorem buildIndex_forall (teams : List Team) :
    ∀ kv ∈ buildIndex teams,
      pnorm (getEntry teams kv.2.1 kv.2.2).email = kv.1 := by
  unfold buildIndex
  have main : ∀ (l : List (Nat × Team)) (idx0 : List (String × (Nat × Nat))),
      (∀ it ∈ l, teams.getD it.1 default = it.2) →
      (∀ kv ∈ idx0, pnorm (getEntry teams kv.2.1 kv.2.2).email = kv.1) →
      ∀ kv ∈ l.foldl (fun idx tp =>
        tp.2.players.enum.foldl (fun idx pp =>
          if pp.2.isMissing then idx
          else
            let em := pnorm pp.2.email
            if em == "" then idx else dictInsert idx em (tp.1, pp.1)) idx) idx0,
        pnorm (getEntry teams kv.2.1 kv.2.2).email = kv.1 := by
    intro l
    induction l with
    | nil => intro idx0 _ h0; exact h0
    | cons tp rest ih =>
      intro idx0 hl h0
      rw [List.foldl_cons]
      refine ih _ (fun it hit => hl it (List.mem_cons_of_mem tp hit)) ?_
      have hteam : teams.getD tp.1 default = tp.2 :=
        hl tp (List.mem_cons_self tp rest)
      have inner : ∀ (pl : List (Nat × Entry)) (idx1 : List (String × (Nat × Nat))),
          (∀ pp ∈ pl, tp.2.players.getD pp.1 default = pp.2) →
          (∀ kv ∈ idx1, pnorm (getEntry teams kv.2.1 kv.2.2).email = kv.1) →
          ∀ kv ∈ pl.foldl (fun idx pp =>
            if pp.2.isMissing then idx
            else
              let em := pnorm pp.2.email
              if em == "" then idx else dictInsert idx em (tp.1, pp.1)) idx1,
            pnorm (getEntry teams kv.2.1 kv.2.2).email = kv.1 := by
        intro pl
        induction pl with
        | nil => intro idx1 _ h1; exact h1
        | cons pp prest ihp =>
          intro idx1 hpl h1
          rw [List.foldl_cons]
          refine ihp _ (fun q hq => hpl q (List.mem_cons_of_mem pp hq)) ?_
          by_cases hm : pp.2.isMissing = true
          · simpa [hm] using h1
          · simp only [hm, Bool.false_eq_true, if_false]
            by_cases he : (pnorm pp.2.email == "") = true
            · simpa [he] using h1
            · simp only [he, Bool.false_eq_true, if_false]
              refine dictInsert_forall _ _ _ _ h1 ?_
              have hent : tp.2.players.getD pp.1 default = pp.2 :=
                hpl pp (List.mem_cons_self pp prest)
              show pnorm (getEntry teams tp.1 pp.1).email = pnorm pp.2.email
              unfold getEntry
              rw [hteam, hent]
      refine inner tp.2.players.enum idx0 ?_ h0
      intro pp hpp
      have h2 := List.mem_enum_iff_getElem?.mp hpp
      rw [List.getD_eq_getElem?_getD, h2]
      rfl
  refine main teams.enum [] ?_ (fun kv hkv => absurd hkv (List.not_mem_nil kv))
  intro it hit
  have h2 := List.mem_enum_iff_getElem?.mp hit
  rw [List.getD_eq_getElem?_getD, h2]
  rfl

theorem buildIndex_lookup (teams : List Team) (em : String) (ti pi : Nat)
    (h : alookup (buildIndex teams) em = some (ti, pi)) :
    pnorm (getEntry teams ti pi).email = em :=
  buildIndex_forall teams (em, (ti, pi)) (alookup_mem _ _ _ h)

theorem FemaleMiddleSafe_mono (a1 a2 : String → Prop) (h : ∀ em, a1 em → a2 em)
    (teams : List Team) (hf : FemaleMiddleSafe a1 teams) :
    FemaleMiddleSafe a2 teams :=
  fun t ht e he hpos hg => h e.email (hf t ht e he hpos hg)

theorem rank_middle_female (R : SlotRanker) (p : Player)
    (thf df relaxed : Bool) (t : Nat × Nat × Nat)
    (h : R.rankForSlot p "middle" thf df relaxed = some t)
    (hf : pnorm p.gender = "f") : effMain R p = "middle" := by
  by_contra hne
  have hne2 : (alookup R.forcedPosByEmail (pnorm p.email)).getD (pnorm p.pref1)
      ≠ "middle" := by simpa [effMain] using hne
  have hcond : ((pnorm p.gender == "f") &&
      ((alookup R.forcedPosByEmail (pnorm p.email)).getD (pnorm p.pref1)
        != "middle")) = true := by
    simp [hf, hne2]
  simp only [SlotRanker.rankForSlot, beq_self_eq_true, if_true, hcond,
    eq_self_iff_true, ite_self] at h
  exact Option.noConfusion h

theorem FMS_updateTeam (allowed : String → Prop) (teams : List Team) (i : Nat)
    (f : Team → Team) (hf : ∀ t, (f t).players = t.players)
    (h : FemaleMiddleSafe allowed teams) :
    FemaleMiddleSafe allowed (updateTeam teams i f) := by
  intro t ht e he hpos hg
  rcases mem_updateTeam _ _ _ _ ht with h1 | ⟨t0, ht0, hft⟩
  · exact h t h1 e he hpos hg
  · subst hft
    rw [hf t0] at he
    exact h t0 ht0 e he hpos hg

theorem fillPos_FMS (R : SlotRanker) (players : List Player)
    (tCount tF tIdx : Nat) (st : GenState) (pos : String)
    (hFMS : FemaleMiddleSafe (genAllowed R players) st.teams)
    (hrem : ∀ p ∈ st.remaining, p ∈ players) :
    FemaleMiddleSafe (genAllowed R players)
      (fillPos R tCount tF tIdx st pos).teams ∧
    (∀ p ∈ (fillPos R tCount tF tIdx st pos).remaining, p ∈ players) := by
  unfold fillPos
  cases hpb : pickBest (fillRanked R tCount tF tIdx st pos) st.rng with
  | mk o rng1 =>
    cases o with
    | none => exact ⟨hFMS, hrem⟩
    | some pick =>
      obtain ⟨r, hr⟩ := pickBest_mem _ _ _ _ hpb
      obtain ⟨hpmem, relaxed, hrank⟩ :=
        fillRanked_mem R tCount tF tIdx st pos r pick hr
      constructor
      · intro t ht e he hpos hg
        rcases mem_updateTeam _ _ _ _ ht with h1 | ⟨t0, ht0, hft⟩
        · exact hFMS t h1 e he hpos hg
        · subst hft
          simp only at he
          rcases List.mem_append.mp he with h2 | h2
          · exact hFMS t0 ht0 e h2 hpos hg
          · have he3 : e = placeEntry pick pos := List.mem_singleton.mp h2
            subst he3
            have hpos2 : pos = "middle" := hpos
            subst hpos2
            have hg2 : pnorm pick.gender = "f" := hg
            have heff := rank_middle_female R pick _ _ relaxed r hrank hg2
            exact ⟨pick, hrem pick hpmem, rfl, heff⟩
      · intro p hp
        exact hrem p (List.mem_of_mem_erase hp)

theorem fillPos_fold_FMS (R : SlotRanker) (players : List Player)
    (tCount tF tIdx : Nat) :
    ∀ (tmpl : List String) (st : GenState),
      FemaleMiddleSafe (genAllowed R players) st.teams →
      (∀ p ∈ st.remaining, p ∈ players) →
      FemaleMiddleSafe (genAllowed R players)
        (tmpl.foldl (fillPos R tCount tF tIdx) st).teams ∧
      (∀ p ∈ (tmpl.foldl (fillPos R tCount tF tIdx) st).remaining,
        p ∈ players) := by
  intro tmpl
  induction tmpl with
  | nil => intro st h1 h2; exact ⟨h1, h2⟩
  | cons x xs ih =>
    intro st h1 h2
    rw [List.foldl_cons]
    obtain ⟨h3, h4⟩ := fillPos_FMS R players tCount tF tIdx st x h1 h2
    exact ih (fillPos R tCount tF tIdx st x) h3 h4

theorem fillTeam_FMS (R : SlotRanker) (players : List Player) (tCount tF : Nat)
    (st : GenState) (it : Nat × List String)
    (hFMS : FemaleMiddleSafe (genAllowed R players) st.teams)
    (hrem : ∀ p ∈ st.remaining, p ∈ players) :
    FemaleMiddleSafe (genAllowed R players)
      (fillTeam R tCount tF st it).teams ∧
    (∀ p ∈ (fillTeam R tCount tF st it).remaining, p ∈ players) := by
  have hextra : ∀ t : Team,
      ((fun t : Team =>
        if t.size == 7 && !t.players.isEmpty then
          { t with extraPlayerIndex := some (t.players.length - 1) }
        else t) t).players = t.players := by
    intro t
    by_cases hc : (t.size == 7 && !t.players.isEmpty) = true <;> simp [hc]
  simp only [fillTeam]
  split
  · obtain ⟨h3, h4⟩ := fillPos_fold_FMS R players tCount tF it.1 it.2
      { st with teams :=
          (updateTeam st.teams it.1 (fun t => { t with missing := some "middle" })) }
      (FMS_updateTeam _ _ _ _ (fun t => rfl) hFMS) hrem
    exact ⟨FMS_updateTeam _ _ _ _ hextra h3, h4⟩
  · obtain ⟨h3, h4⟩ := fillPos_fold_FMS R players tCount tF it.1 it.2 st hFMS hrem
    exact ⟨FMS_updateTeam _ _ _ _ hextra h3, h4⟩

theorem fillTeams_fold_FMS (R : SlotRanker) (players : List Player)
    (tCount tF : Nat) :
    ∀ (l : List (Nat × List String)) (st : GenState),
      FemaleMiddleSafe (genAllowed R players) st.teams →
      (∀ p ∈ st.remaining, p ∈ players) →
      FemaleMiddleSafe (genAllowed R players)
        (l.foldl (fillTeam R tCount tF) st).teams ∧
      (∀ p ∈ (l.foldl (fillTeam R tCount tF) st).remaining, p ∈ players) := by
  intro l
  induction l with
  | nil => intro st h1 h2; exact ⟨h1, h2⟩
  | cons x xs ih =>
    intro st h1 h2
    rw [List.foldl_cons]
    obtain ⟨h3, h4⟩ := fillTeam_FMS R players tCount tF st x h1 h2
    exact ih (fillTeam R tCount tF st x) h3 h4

theorem mkTeams_FMS (allowed : String → Prop) (templates : List (List String)) :
    FemaleMiddleSafe allowed (mkTeams templates) := by
  intro t ht e he
  simp only [mkTeams, List.mem_map] at ht
  obtain ⟨it, hit, hteq⟩ := ht
  rw [← hteq] at he
  simp only at he
  exact absurd he (List.not_mem_nil e)

theorem distributeLeftovers_FMS (allowed : String → Prop) :
    ∀ (rem : List Player) (teams : List Team),
      FemaleMiddleSafe allowed teams →
      FemaleMiddleSafe allowed (distributeLeftovers teams rem) := by
  intro rem
  induction rem with
  | nil => intro teams h; exact h
  | cons p rest ih =>
    intro teams h
    simp only [distributeLeftovers]
    refine ih (leftoverAdd teams p) ?_
    intro t ht e he hpos hg
    rcases leftoverAdd_entries teams p t e ht he with ⟨t0, ht0, he0⟩ | hdef
    · exact h t0 ht0 e he0 hpos hg
    · rw [hdef] at hpos
      simp [leftoverEntry] at hpos

theorem generate_FMS (players : List Player) (seed : Option Int)
    (ambient : Nat → Nat) (history : HistoryFairness) (keep : List String)
    (forced : List (String × String)) :
    FemaleMiddleSafe
      (genAllowed (mkSlotRanker history keep forced) players)
      (TeamGenerator.generate players seed ambient history keep forced) := by
  simp only [TeamGenerator.generate]
  split
  · intro t ht
    exact absurd ht (List.not_mem_nil t)
  · simp only [generateFromShuffled]
    apply distributeLeftovers_FMS
    exact (fillTeams_fold_FMS _ players _ _ _ _
      (mkTeams_FMS _ _)
      (fun p hp => shuffleGo_mem _ _ _ p hp)).1

theorem phase0Step_cases (rules0 : List RuleEntry)
    (offpref : List (String × Nat)) (idx : List (String × (Nat × Nat)))
    (cur : List Team) (rule : RuleEntry) (next : List Team)
    (h : phase0Step rules0 offpref idx cur rule = .ok next) :
    next = cur ∨
    ∃ ti pi, alookup idx rule.playerEmail = some (ti, pi) ∧
      rule.forcedPosition ≠ "" ∧
      next = setEntry cur ti pi
        { getEntry cur ti pi with pos := rule.forcedPosition } := by
  simp only [phase0Step] at h
  split at h
  · exact Or.inl (Except.ok.inj h).symm
  · next hfne =>
    split at h
    · exact Or.inl (Except.ok.inj h).symm
    · next ti pi heq =>
      split at h
      · exact Or.inl (Except.ok.inj h).symm
      · split at h
        · exact Except.noConfusion h
        · refine Or.inr ⟨ti, pi, heq, ?_, (Except.ok.inj h).symm⟩
          intro hc
          rw [hc] at hfne
          exact hfne rfl

theorem phase0_fold_FMS (allowed : String → Prop)
    (offpref : List (String × Nat)) (rules0 : List RuleEntry)
    (teams0 : List Team) :
    ∀ (rules : List RuleEntry) (cur out : List Team),
      (∀ re ∈ rules, re ∈ rules0) →
      FemaleMiddleSafe (fun em => allowed em ∨ ruleForcedMiddle rules0 em) cur →
      (∀ tj pj, (getEntry cur tj pj).email = (getEntry teams0 tj pj).email) →
      rules.foldlM (fun ts rule =>
        phase0Step rules0 offpref (buildIndex teams0) ts rule) cur = .ok out →
      FemaleMiddleSafe (fun em => allowed em ∨ ruleForcedMiddle rules0 em)
        out := by
  intro rules
  induction rules with
  | nil =>
    intro cur out _ hFMS _ h
    injection h with h2
    rw [← h2]
    exact hFMS
  | cons r rs ih =>
    intro cur out hsub hFMS hemail h
    rw [List.foldlM_cons] at h
    cases hs : phase0Step rules0 offpref (buildIndex teams0) cur r with
    | error e =>
      rw [hs] at h
      have hc : (Except.error e : Except String (List Team)) = .ok out := h
      cases hc
    | ok next =>
      rw [hs] at h
      rcases phase0Step_cases rules0 offpref (buildIndex teams0) cur r next hs
        with hnext | ⟨ti, pi, hloc, hfne, hnext⟩
      · subst hnext
        exact ih _ out (fun re hre => hsub re (List.mem_cons_of_mem r hre))
          hFMS hemail h
      · subst hnext
        refine ih _ out (fun re hre => hsub re (List.mem_cons_of_mem r hre))
          ?_ ?_ h
        · -- the relabelled entry is covered by the rule's forced position
          intro t ht e he hpos hg
          rcases mem_setEntry _ _ _ _ t ht e he with ⟨t0, ht0, he0⟩ | hed
          · exact hFMS t0 ht0 e he0 hpos hg
          · subst hed
            right
            refine ⟨r, hsub r (List.mem_cons_self r rs), ?_, ?_⟩
            · have hb := buildIndex_lookup teams0 r.playerEmail ti pi hloc
              rw [← hemail ti pi] at hb
              exact hb.symm
            · exact hpos
        · intro tj pj
          refine Eq.trans (getEntry_setEntry_email _ ti pi _ ?_ tj pj)
            (hemail tj pj)
          rfl

theorem phase0_FMS (allowed : String → Prop) (offpref : List (String × Nat))
    (rules : List RuleEntry) (teams out : List Team)
    (hFMS : FemaleMiddleSafe allowed teams)
    (h : phase0 offpref rules teams = .ok out) :
    FemaleMiddleSafe (fun em => allowed em ∨ ruleForcedMiddle rules em) out := by
  unfold phase0 at h
  exact phase0_fold_FMS allowed offpref rules teams rules teams out
    (fun re hre => hre)
    (FemaleMiddleSafe_mono allowed _ (fun em ha => Or.inl ha) teams hFMS)
    (fun tj pj => rfl) h

theorem entriesSub_refl (a : List Team) : entriesSub a a :=
  fun t ht _e he => Or.inl ⟨t, ht, he⟩

theorem entriesSub_trans {a b c : List Team} (h1 : entriesSub a b)
    (h2 : entriesSub b c) : entriesSub a c := by
  intro t ht e he
  rcases h1 t ht e he with ⟨t0, ht0, he0⟩ | hd
  · exact h2 t0 ht0 e he0
  · exact Or.inr hd

theorem FMS_of_entriesSub (allowed : String → Prop) {a b : List Team}
    (hsub : entriesSub a b) (hb : FemaleMiddleSafe allowed b) :
    FemaleMiddleSafe allowed a := by
  intro t ht e he hpos hg
  rcases hsub t ht e he with ⟨t0, ht0, he0⟩ | hdef
  · exact hb t0 ht0 e he0 hpos hg
  · rw [hdef] at hpos
    exact absurd hpos (by decide)

theorem entriesSub_setEntry_of_getEntry (teams : List Team) (ti pi : Nat)
    (tj pj : Nat) :
    entriesSub (setEntry teams ti pi (getEntry teams tj pj)) teams := by
  intro t ht e he
  rcases mem_setEntry _ _ _ _ t ht e he with ⟨t0, ht0, he0⟩ | hed
  · exact Or.inl ⟨t0, ht0, he0⟩
  · subst hed
    exact getEntry_cases teams tj pj

theorem phase2MustStep_entries (offpref : List (String × Nat))
    (locA : Nat × Nat) (teams : List Team) (other : String) :
    entriesSub (phase2MustStep offpref locA teams other) teams := by
  simp only [phase2MustStep]
  split
  · exact entriesSub_refl teams
  · next tb pb heq =>
    split
    · exact entriesSub_refl teams
    · split
      · exact entriesSub_refl teams
      · next c hmin =>
        intro t ht e he
        rcases mem_setEntry _ _ _ _ t ht e he with ⟨t0, ht0, he0⟩ | hed
        · exact entriesSub_setEntry_of_getEntry teams locA.1 c.1 tb pb
            t0 ht0 e he0
        · subst hed
          exact getEntry_cases teams locA.1 c.1

theorem phase2Step_entries (offpref : List (String × Nat)) (teams : List Team)
    (rule : RuleEntry) :
    entriesSub (phase2Step offpref teams rule) teams := by
  have hfold : ∀ (l : List String) (locA : Nat × Nat) (ts : List Team),
      entriesSub (l.foldl (phase2MustStep offpref locA) ts) ts := by
    intro l
    induction l with
    | nil => intro locA ts; exact entriesSub_refl ts
    | cons x xs ih =>
      intro locA ts
      rw [List.foldl_cons]
      exact entriesSub_trans (ih locA _) (phase2MustStep_entries offpref locA ts x)
  simp only [phase2Step]
  split
  · exact entriesSub_refl teams
  · split
    · exact entriesSub_refl teams
    · exact hfold _ _ _

theorem phase2_entries (offpref : List (String × Nat)) (rules : List RuleEntry) :
    ∀ teams : List Team, entriesSub (phase2 offpref rules teams) teams := by
  unfold phase2
  induction rules with
  | nil => intro teams; exact entriesSub_refl teams
  | cons r rs ih =>
    intro teams
    rw [List.foldl_cons]
    exact entriesSub_trans (ih _) (phase2Step_entries offpref teams r)

theorem phase3TryTeam_entries (offpref : List (String × Nat))
    (teams : List Team) (tb pb : Nat) (bPos : String) (target : Nat)
    (out : List Team) (h : phase3TryTeam offpref teams tb pb bPos target = some out) :
    entriesSub out teams := by
  simp only [phase3TryTeam] at h
  split at h
  · exact Option.noConfusion h
  · split at h
    · exact Option.noConfusion h
    · next c hmin =>
      cases h
      intro t ht e he
      rcases mem_setEntry _ _ _ _ t ht e he with ⟨t0, ht0, he0⟩ | hed
      · exact entriesSub_setEntry_of_getEntry teams target c.1 tb pb t0 ht0 e he0
      · subst hed
        exact getEntry_cases teams target c.1

theorem phase3CannotStep_entries (offpref : List (String × Nat))
    (locA : Nat × Nat) (teams : List Team) (other : String) :
    entriesSub (phase3CannotStep offpref locA teams other) teams := by
  simp only [phase3CannotStep]
  split
  · exact entriesSub_refl teams
  · next tb pb heq =>
    split
    · exact entriesSub_refl teams
    · split
      · next ts hts =>
        exact firstSome_prop _ (fun b => entriesSub b teams)
          (fun a b hb => phase3TryTeam_entries offpref teams tb pb _ a b hb)
          _ ts hts
      · exact entriesSub_refl teams

theorem phase3Step_entries (offpref : List (String × Nat)) (teams : List Team)
    (rule : RuleEntry) :
    entriesSub (phase3Step offpref teams rule) teams := by
  have hfold : ∀ (l : List String) (locA : Nat × Nat) (ts : List Team),
      entriesSub (l.foldl (phase3CannotStep offpref locA) ts) ts := by
    intro l
    induction l with
    | nil => intro locA ts; exact entriesSub_refl ts
    | cons x xs ih =>
      intro locA ts
      rw [List.foldl_cons]
      exact entriesSub_trans (ih locA _)
        (phase3CannotStep_entries offpref locA ts x)
  simp only [phase3Step]
  split
  · exact entriesSub_refl teams
  · split
    · exact entriesSub_refl teams
    · exact hfold _ _ _

theorem phase3_entries (offpref : List (String × Nat)) (rules : List RuleEntry) :
    ∀ teams : List Team, entriesSub (phase3 offpref rules teams) teams := by
  unfold phase3
  induction rules with
  | nil => intro teams; exact entriesSub_refl teams
  | cons r rs ih =>
    intro teams
    rw [List.foldl_cons]
    exact entriesSub_trans (ih _) (phase3Step_entries offpref teams r)

theorem phase2_FMS (allowed : String → Prop) (offpref : List (String × Nat))
    (rules : List RuleEntry) (teams : List Team)
    (h : FemaleMiddleSafe allowed teams) :
    FemaleMiddleSafe allowed (phase2 offpref rules teams) :=
  FMS_of_entriesSub allowed (phase2_entries offpref rules teams) h

theorem phase3_FMS (allowed : String → Prop) (offpref : List (String × Nat))
    (rules : List RuleEntry) (teams : List Team)
    (h : FemaleMiddleSafe allowed teams) :
    FemaleMiddleSafe allowed (phase3 offpref rules teams) :=
  FMS_of_entriesSub allowed (phase3_entries offpref rules teams) h

/-- Counterexample to C1 as stated: on this roster and run, phase 1 of
`postprocess_teams` swaps P (forbidden middle) with F — the only same-team
candidate without a conflicting rule — putting F (female, pref1 = outside,
no forced position anywhere, as the second conjunct checks) at middle. -/
theorem C1_counterexample :
    ((match postprocessTeams genC1 rulesC1 [] [] with
      | .ok ts => femaleMiddleOkB (mkSlotRanker {} keepC1 []) rosterC1 ts
      | .error _ => true) = false) ∧
    (normalizeRules rulesC1).all
      (fun re => !(re.forcedPosition == "middle")) = true := by decide

/-- C1 (corrected).  The female-middle rule holds through both ranking
passes and all of generation, and is preserved by repair phases 0 (which may
additionally place a female at middle only when her own session rule forces
middle), 2 and 3; phase 1 (forbidden positions) does not preserve it. -/
theorem C1_female_middle_invariant :
    (∀ (R : SlotRanker) (p : Player) (thf df relaxed : Bool)
        (t : Nat × Nat × Nat),
      R.rankForSlot p "middle" thf df relaxed = some t →
      pnorm p.gender = "f" → effMain R p = "middle") ∧
    (∀ (players : List Player) (seed : Option Int) (ambient : Nat → Nat)
        (history : HistoryFairness) (keep : List String)
        (forced : List (String × String)),
      FemaleMiddleSafe (genAllowed (mkSlotRanker history keep forced) players)
        (TeamGenerator.generate players seed ambient history keep forced)) ∧
    (∀ (allowed : String → Prop) (offpref : List (String × Nat))
        (rules : List RuleEntry) (teams out : List Team),
      FemaleMiddleSafe allowed teams → phase0 offpref rules teams = .ok out →
      FemaleMiddleSafe (fun em => allowed em ∨ ruleForcedMiddle rules em)
        out) ∧
    (∀ (allowed : String → Prop) (offpref : List (String × Nat))
        (rules : List RuleEntry) (teams : List Team),
      FemaleMiddleSafe allowed teams →
      FemaleMiddleSafe allowed (phase2 offpref rules teams)) ∧
    (∀ (allowed : String → Prop) (offpref : List (String × Nat))
        (rules : List RuleEntry) (teams : List Team),
      FemaleMiddleSafe allowed teams →
      FemaleMiddleSafe allowed (phase3 offpref rules teams)) :=
  ⟨rank_middle_female, generate_FMS, phase0_FMS, phase2_FMS, phase3_FMS⟩

/-- Witness for the amended C1: a female true middle passes the ranker and
indeed has effective preference middle; the generated teams of a one-player
roster satisfy the invariant; phase 0 on the concrete teams with no rules
returns them unchanged and keeps the invariant; phases 2 and 3 keep it
too. -/
theorem C1_female_middle_invariant_witness :
    effMain { history := {} } { email := "g@x", gender := "f", pref1 := "middle" }
      = "middle" ∧
    FemaleMiddleSafe (genAllowed (mkSlotRanker {} [] []) [rS])
      (TeamGenerator.generate [rS] (some 0) (fun _ => 0) {} [] []) ∧
    FemaleMiddleSafe (fun em => True ∨ ruleForcedMiddle [] em) c5Teams ∧
    FemaleMiddleSafe (fun _ => True) (phase2 [] [] c5Teams) ∧
    FemaleMiddleSafe (fun _ => True) (phase3 [] [] c5Teams) :=
  ⟨C1_female_middle_invariant.1 { history := {} }
      { email := "g@x", gender := "f", pref1 := "middle" } false false false
      (1, 0, 0) (by decide) (by decide),
    C1_female_middle_invariant.2.1 [rS] (some 0) (fun _ => 0) {} [] [],
    C1_female_middle_invariant.2.2.1 (fun _ => True) [] [] c5Teams c5Teams
      (fun _ _ _ _ _ _ => trivial) rfl,
    C1_female_middle_invariant.2.2.2.1 (fun _ => True) [] [] c5Teams
      (fun _ _ _ _ _ _ => trivial),
    C1_female_middle_invariant.2.2.2.2 (fun _ => True) [] [] c5Teams
      (fun _ _ _ _ _ _ => trivial)⟩

